import Mathlib

/-!
Verification development for the Camillo trend-scanning agent (`main.py`).

The program is embedded shallowly: Python strings are `List Char`, the
external services (search provider, Reddit, X, the scoring LLM, yfinance)
are fields of an `Env` record mapping requests to `Except`-style outcomes,
and the LLM ("oracle") responses consumed by the per-keyword loop are given
as a tape `List (Except PyErr Str)`, one entry per call.  Python exceptions
are modelled with `Except PyErr`, where `PyErr` is the rendered message
string `str(e)`; an `Except.error` escaping `runReport` models an uncaught
exception aborting the run.

Known deliberate model restrictions, each noted at the definition it
concerns: JSON number literals are integers only (floating point is outside
the embedding), and parser / runtime error message texts are simplified
descriptors rather than CPython's exact renderings (no modelled behaviour
depends on the text of a message that the program merely stores or drops).
-/

namespace Camillo

/-- Python strings are modelled as lists of characters. -/
abbrev Str := List Char

/-- Character list of a Lean string literal. -/
def lc (s : String) : Str := s.data

/-- Python exception, identified with the message text `str(e)`. -/
abbrev PyErr := Str

/-- Decidable prefix test on character lists (`str.startswith`). -/
def hasPre : Str → Str → Bool
  | [], _ => true
  | _ :: _, [] => false
  | a :: p, b :: l => a == b && hasPre p l

/-- Decidable substring test on character lists (`needle in haystack`). -/
def hasSub (s : Str) : Str → Bool
  | [] => hasPre s []
  | c :: l => hasPre s (c :: l) || hasSub s l

/-- Whitespace stripped by Python `str.strip()` (ASCII portion; the unicode
whitespace Python also strips never occurs in the modelled data). -/
def pyIsSpace (c : Char) : Bool :=
  c == ' ' || c == '\t' || c == '\n' || c == '\r' || c == '\x0b' || c == '\x0c'

/-- Python `str.strip()`: drop leading and trailing whitespace. -/
def pyStrip (l : Str) : Str :=
  ((l.dropWhile pyIsSpace).reverse.dropWhile pyIsSpace).reverse

/-- Worker for `pySplit`: scan left to right, cutting at each
non-overlapping occurrence of the separator, accumulating the current
piece in reverse.  The separator is nonempty at every call site.  The
fuel argument only bounds the recursion (each step consumes at least one
character, so the input length is always enough). -/
def pySplitAux (sep : Str) : Nat → Str → Str → List Str
  | _, [], acc => [acc.reverse]
  | 0, c :: l, acc => [acc.reverse ++ (c :: l)]
  | Nat.succ fuel, c :: l, acc =>
    if hasPre sep (c :: l) then
      acc.reverse :: pySplitAux sep fuel (List.drop (sep.length - 1) l) []
    else
      pySplitAux sep fuel l (c :: acc)

/-- Python `str.split(sep)` for a nonempty separator.  (Python raises
`ValueError` on an empty separator; the program only splits on the fence
markers, which are nonempty, so that case is arbitrary here.) -/
def pySplit (sep l : Str) : List Str :=
  if sep.length = 0 then [l] else pySplitAux sep l.length l []

/-- Python `str.lower()` (ASCII; all compared data is ASCII). -/
def pyLower (l : Str) : Str := l.map Char.toLower

/-- Python `str.upper()` (ASCII; the keyword list is ASCII). -/
def pyUpper (l : Str) : Str := l.map Char.toUpper

/-- Python `sep.join(parts)`. -/
def pyJoin (sep : Str) : List Str → Str
  | [] => []
  | x :: rest => x ++ (rest.flatMap fun y => sep ++ y)

/-- Python slice `s[:n]`. -/
def pyTake (n : Nat) (l : Str) : Str := l.take n

/-- Decimal rendering of an integer, as Python `str(i)`. -/
def intStr (n : Int) : Str := (toString n).data

/-- JSON values as produced by `json.loads`.  Model restriction: number
literals are integers (`num`); the Python parser additionally accepts
fraction/exponent numerals as floats, which are outside this embedding
(see `pNumNat`). -/
inductive Json where
  | null : Json
  | bool (b : Bool) : Json
  | num (n : Int) : Json
  | str (s : Str) : Json
  | arr (xs : List Json) : Json
  | obj (kvs : List (Str × Json)) : Json

/-- Association lookup among a JSON object's key/value pairs. -/
def jlookup (kvs : List (Str × Json)) (k : Str) : Option Json :=
  match kvs with
  | [] => none
  | (k₁, v) :: rest => if k₁ = k then some v else jlookup rest k

/-- Insert a key/value pair with Python dict semantics: an existing key
keeps its position and gets the new value, a new key is appended. -/
def objUpsert (kvs : List (Str × Json)) (k : Str) (v : Json) : List (Str × Json) :=
  match kvs with
  | [] => [(k, v)]
  | (k₁, v₁) :: rest =>
    if k₁ = k then (k₁, v) :: rest else (k₁, v₁) :: objUpsert rest k v

/-- Fold a parsed member list into a dict, later duplicates overriding
earlier ones (Python `json.loads` duplicate-key behaviour). -/
def objOfPairs (ps : List (Str × Json)) : List (Str × Json) :=
  ps.foldl (fun acc kv => objUpsert acc kv.1 kv.2) []

/-- Whitespace accepted between JSON tokens. -/
def jsonWs (c : Char) : Bool := c == ' ' || c == '\t' || c == '\n' || c == '\r'

/-- Skip inter-token whitespace. -/
def skipWs (l : Str) : Str := l.dropWhile jsonWs

/-- ASCII digit test. -/
def isDig (c : Char) : Bool := '0' ≤ c && c ≤ '9'

/-- Hexadecimal digit value, for string `\u` escapes, computed from the
character code. -/
def hexVal (c : Char) : Option Nat :=
  let n := c.toNat
  if 48 ≤ n ∧ n ≤ 57 then some (n - 48)
  else if 97 ≤ n ∧ n ≤ 102 then some (n - 87)
  else if 65 ≤ n ∧ n ≤ 70 then some (n - 55)
  else none

/-- Single-character string escapes of JSON, as a lookup table from the
escape letter to the denoted character. -/
def escTable : List (Char × Char) :=
  [('"', '"'), ('\\', '\\'), ('/', '/'), ('b', Char.ofNat 8), ('f', Char.ofNat 12),
   ('n', Char.ofNat 10), ('r', Char.ofNat 13), ('t', Char.ofNat 9)]

/-- Character denoted by a single-letter escape, if any. -/
def escChar (c : Char) : Option Char :=
  (escTable.find? (fun pr => pr.1 == c)).map Prod.snd

/-- Parse the body of a JSON string literal, after the opening quote,
returning the decoded characters and the remainder after the closing
quote.  Strict-mode rules of `json.loads`: raw control characters are
rejected.  Model simplification: a `\u` escape becomes the scalar value
of its four hex digits (CPython additionally combines surrogate pairs). -/
def pStrA : Str → Except PyErr (Str × Str)
  | [] => Except.error (lc "Unterminated string")
  | c :: rest =>
    if c == '"' then Except.ok ([], rest)
    else if c == '\\' then
      match rest with
      | [] => Except.error (lc "Unterminated string")
      | e :: r₂ =>
        if e == 'u' then
          match r₂ with
          | h₁ :: h₂ :: h₃ :: h₄ :: r₃ =>
            match hexVal h₁, hexVal h₂, hexVal h₃, hexVal h₄ with
            | some a, some b, some u, some d =>
              match pStrA r₃ with
              | Except.ok (s, r₄) =>
                Except.ok (Char.ofNat (((a * 16 + b) * 16 + u) * 16 + d) :: s, r₄)
              | Except.error er => Except.error er
            | _, _, _, _ => Except.error (lc "Invalid unicode escape")
          | _ => Except.error (lc "Invalid unicode escape")
        else
          match escChar e with
          | some ce =>
            match pStrA r₂ with
            | Except.ok (s, r₄) => Except.ok (ce :: s, r₄)
            | Except.error er => Except.error er
          | none => Except.error (lc "Invalid escape")
    else if c.toNat < 32 then Except.error (lc "Invalid control character")
    else
      match pStrA rest with
      | Except.ok (s, r₄) => Except.ok (c :: s, r₄)
      | Except.error er => Except.error er

/-- Digit-sequence value, most significant digit first. -/
def natOfDigits (ds : Str) : Nat :=
  ds.foldl (fun a c => 10 * a + (c.toNat - 48)) 0

/-- Parse an unsigned JSON number.  JSON's leading-zero rule applies: a
literal starting with `0` is exactly `0`.  Model restriction: a following
`.`, `e` or `E` (a float literal, which Python would accept) is reported
as a parse failure, floating point being outside the embedding. -/
def pNumNat (l : Str) : Except PyErr (Nat × Str) :=
  match l with
  | [] => Except.error (lc "Expecting value")
  | c :: r =>
    if isDig c then
      let ds := if c == '0' then [c] else (c :: r).takeWhile isDig
      let rest := if c == '0' then r else (c :: r).dropWhile isDig
      match rest with
      | p :: _ =>
        if p == '.' || p == 'e' || p == 'E' then
          Except.error (lc "model: non-integer numeral")
        else Except.ok (natOfDigits ds, rest)
      | [] => Except.ok (natOfDigits ds, rest)
    else Except.error (lc "Expecting value")

/-- Parse a signed JSON number. -/
def pNum (l : Str) : Except PyErr (Int × Str) :=
  match l with
  | '-' :: r =>
    match pNumNat r with
    | Except.ok (n, rest) => Except.ok (-(n : Int), rest)
    | Except.error e => Except.error e
  | _ =>
    match pNumNat l with
    | Except.ok (n, rest) => Except.ok ((n : Int), rest)
    | Except.error e => Except.error e

mutual

/-- Recursive-descent JSON value parser with a fuel bound on recursion
depth (`jsonLoads` supplies ample fuel; each descent consumes input). -/
def pVal : Nat → Str → Except PyErr (Json × Str)
  | 0, _ => Except.error (lc "model: fuel exhausted")
  | Nat.succ f, l =>
    match skipWs l with
    | 'n' :: 'u' :: 'l' :: 'l' :: r => Except.ok (Json.null, r)
    | 't' :: 'r' :: 'u' :: 'e' :: r => Except.ok (Json.bool true, r)
    | 'f' :: 'a' :: 'l' :: 's' :: 'e' :: r => Except.ok (Json.bool false, r)
    | '"' :: r =>
      match pStrA r with
      | Except.ok (s, r₁) => Except.ok (Json.str s, r₁)
      | Except.error e => Except.error e
    | '[' :: r =>
      match skipWs r with
      | ']' :: r₁ => Except.ok (Json.arr [], r₁)
      | _ =>
        match pArrItems f (skipWs r) with
        | Except.ok (xs, r₁) => Except.ok (Json.arr xs, r₁)
        | Except.error e => Except.error e
    | '\x7b' :: r =>
      match skipWs r with
      | '\x7d' :: r₁ => Except.ok (Json.obj [], r₁)
      | _ =>
        match pObjItems f (skipWs r) with
        | Except.ok (kvs, r₁) => Except.ok (Json.obj (objOfPairs kvs), r₁)
        | Except.error e => Except.error e
    | c :: r =>
      if isDig c || c == '-' then
        match pNum (c :: r) with
        | Except.ok (n, r₁) => Except.ok (Json.num n, r₁)
        | Except.error e => Except.error e
      else Except.error (lc "Expecting value")
    | [] => Except.error (lc "Expecting value")

/-- Parse the comma-separated items of a nonempty JSON array, up to and
including the closing bracket. -/
def pArrItems : Nat → Str → Except PyErr (List Json × Str)
  | 0, _ => Except.error (lc "model: fuel exhausted")
  | Nat.succ f, l =>
    match pVal f l with
    | Except.error e => Except.error e
    | Except.ok (v, r) =>
      match skipWs r with
      | ',' :: r₁ =>
        match pArrItems f r₁ with
        | Except.ok (vs, r₂) => Except.ok (v :: vs, r₂)
        | Except.error e => Except.error e
      | ']' :: r₁ => Except.ok ([v], r₁)
      | _ => Except.error (lc "Expecting delimiter")

/-- Parse the comma-separated members of a nonempty JSON object, up to and
including the closing brace. -/
def pObjItems : Nat → Str → Except PyErr (List (Str × Json) × Str)
  | 0, _ => Except.error (lc "model: fuel exhausted")
  | Nat.succ f, l =>
    match skipWs l with
    | '"' :: r =>
      match pStrA r with
      | Except.error e => Except.error e
      | Except.ok (k, r₁) =>
        match skipWs r₁ with
        | ':' :: r₂ =>
          match pVal f r₂ with
          | Except.error e => Except.error e
          | Except.ok (v, r₃) =>
            match skipWs r₃ with
            | ',' :: r₄ =>
              match pObjItems f r₄ with
              | Except.ok (kvs, r₅) => Except.ok ((k, v) :: kvs, r₅)
              | Except.error e => Except.error e
            | '\x7d' :: r₄ => Except.ok ([(k, v)], r₄)
            | _ => Except.error (lc "Expecting delimiter")
        | _ => Except.error (lc "Expecting colon delimiter")
    | _ => Except.error (lc "Expecting property name")

end

/-- Python `json.loads`: parse one value, then require only whitespace to
remain. -/
def jsonLoads (l : Str) : Except PyErr Json :=
  match pVal (2 * l.length + 2) l with
  | Except.error e => Except.error e
  | Except.ok (v, rest) =>
    if skipWs rest = [] then Except.ok v else Except.error (lc "Extra data")

/-- Python `obj.get(key, default)`.  Only a dict has a `get` attribute;
any other value raises `AttributeError` (the message text is a simplified
descriptor). -/
def pyGet (j : Json) (k : Str) (d : Json) : Except PyErr Json :=
  match j with
  | Json.obj kvs => Except.ok ((jlookup kvs k).getD d)
  | _ => Except.error (lc "AttributeError: object has no attribute get")

/-- Python comparison `v >= n` against an int: ints and bools compare
numerically, every other type raises `TypeError`.  (Floats, which would
also compare, are outside the embedding.) -/
def pyGeInt (v : Json) (n : Int) : Except PyErr Bool :=
  match v with
  | Json.num m => Except.ok (n ≤ m)
  | Json.bool b => Except.ok (n ≤ (if b then (1 : Int) else 0))
  | _ => Except.error (lc "TypeError: unorderable types")

/-- Python truthiness of a value. -/
def pyTruthy (j : Json) : Bool :=
  match j with
  | Json.null => false
  | Json.bool b => b
  | Json.num n => n != 0
  | Json.str s => !s.isEmpty
  | Json.arr xs => !xs.isEmpty
  | Json.obj kvs => !kvs.isEmpty

/-- Python iteration over a value: a list yields its elements, a string
its characters (as one-character strings), a dict its keys; other types
raise `TypeError`. -/
def pyIter (j : Json) : Except PyErr (List Json) :=
  match j with
  | Json.arr xs => Except.ok xs
  | Json.str s => Except.ok (s.map fun c => Json.str [c])
  | Json.obj kvs => Except.ok (kvs.map fun kv => Json.str kv.1)
  | _ => Except.error (lc "TypeError: object is not iterable")

/-- Python `len`: defined for lists, strings and dicts. -/
def pyLen (j : Json) : Except PyErr Int :=
  match j with
  | Json.arr xs => Except.ok (xs.length : Int)
  | Json.str s => Except.ok (s.length : Int)
  | Json.obj kvs => Except.ok (kvs.length : Int)
  | _ => Except.error (lc "TypeError: object has no len")

/-- Python `key in container` as used on the parsed search response:
key membership for a dict, substring for a string, element membership
(against the string value) for a list. -/
def pyHasKey (j : Json) (k : Str) : Except PyErr Bool :=
  match j with
  | Json.obj kvs => Except.ok (kvs.any fun kv => kv.1 == k)
  | Json.str s => Except.ok (hasSub k s)
  | Json.arr xs =>
    Except.ok (xs.any fun x => match x with | Json.str s => s == k | _ => false)
  | _ => Except.error (lc "TypeError: argument is not a container")

/-- Python string repr: quotes with a single quote unless the string
contains one and no double quote, escaping backslashes, newlines, tabs,
carriage returns and the quote character. -/
def pyReprStrQ (s : Str) : Str :=
  let sq : Char := Char.ofNat 39
  let q : Char := if s.contains sq && !s.contains '"' then '"' else sq
  let esc : Char → Str := fun c =>
    if c == '\\' then lc "\\\\"
    else if c == q then ['\\', q]
    else if c == '\n' then lc "\\n"
    else if c == '\r' then lc "\\r"
    else if c == '\t' then lc "\\t"
    else [c]
  q :: (s.flatMap esc) ++ [q]

mutual

/-- Python `repr` of a value, as used for elements inside `str(list)` and
`str(dict)`.  Simplification: only the standard short escapes are applied
to strings (CPython also hex-escapes unprintable characters); no claim
exercises these paths with data where that matters. -/
def pyReprVal : Json → Str
  | Json.null => lc "None"
  | Json.bool b => lc (if b then "True" else "False")
  | Json.num n => intStr n
  | Json.str s => pyReprStrQ s
  | Json.arr xs => lc "[" ++ pyReprList xs ++ lc "]"
  | Json.obj kvs => lc "\x7b" ++ pyReprPairs kvs ++ lc "\x7d"

/-- Comma-joined reprs of list elements. -/
def pyReprList : List Json → Str
  | [] => []
  | [x] => pyReprVal x
  | x :: rest => pyReprVal x ++ lc ", " ++ pyReprList rest

/-- Comma-joined `key: value` reprs of dict entries. -/
def pyReprPairs : List (Str × Json) → Str
  | [] => []
  | [(k, v)] => pyReprStrQ k ++ lc ": " ++ pyReprVal v
  | (k, v) :: rest => pyReprStrQ k ++ lc ": " ++ pyReprVal v ++ lc ", " ++ pyReprPairs rest

end

/-- Python `str(v)` as interpolated by an f-string: a string stays itself,
anything else renders via repr-style formatting. -/
def pyStr : Json → Str
  | Json.str s => s
  | j => pyReprVal j

/-- A tweet as consumed by `check_camillo_signals`: its text, the
pre-rendered date of `created_at.date()`, and its numeric id. -/
structure Tweet where
  text : Str
  createdDate : Str
  id : Nat

/-- External world of one run.  Credential presence flags mirror the
environment variables; each service maps a request to either a result or
a raised exception.  `serperHttp` returns the decoded body `resp.json()`
of the search call, `redditSearch` the number of results the subreddit
search iterator yields, `xSearch` the recent-tweet count extracted from
the response metadata, `xUser` the looked-up user id (`none` when
`user.data` is empty), `xTweets` a user's recent tweets (`none` when
`tweets.data` is `None`), and `yfin` the `(currentPrice, marketCap)`
fields of `yf.Ticker(t).info` (absent keys as `none`; prices are modelled
as integers, floating point being outside the embedding). -/
structure Env where
  serperKey : Bool
  serperHttp : Str → Except PyErr Json
  redditCreds : Bool
  redditSearch : Str → Except PyErr Int
  xCreds : Bool
  xSearch : Str → Except PyErr Int
  xUser : Str → Except PyErr (Option Nat)
  xTweets : Nat → Except PyErr (Option (List Tweet))

/-- Search query sent by the web-search fetcher. -/
def serperQuery (kw : Str) : Str := kw ++ lc " viral OR trend OR tiktok OR reddit"

/-- Body of `get_serper_buzz`'s `try` block: decode the response, count
organic results, count related searches when present, and weight them. -/
def serperTry (env : Env) (kw : Str) : Except PyErr (Int × Str) :=
  match env.serperHttp (serperQuery kw) with
  | Except.error e => Except.error e
  | Except.ok data =>
    match pyGet data (lc "organic") (Json.arr []) with
    | Except.error e => Except.error e
    | Except.ok organicJ =>
      match pyLen organicJ with
      | Except.error e => Except.error e
      | Except.ok organic =>
        match pyHasKey data (lc "relatedSearches") with
        | Except.error e => Except.error e
        | Except.ok hasRel =>
          let relStep : Except PyErr Int :=
            if hasRel then
              match pyGet data (lc "relatedSearches") (Json.arr []) with
              | Except.error e => Except.error e
              | Except.ok relJ => pyLen relJ
            else Except.ok 0
          match relStep with
          | Except.error e => Except.error e
          | Except.ok related =>
            Except.ok (organic + related * 2,
              intStr organic ++ lc " organic + " ++ intStr related ++ lc " related")

/-- The web-search fetcher `get_serper_buzz`: missing key yields the
zero default without a call; any exception in the `try` body is caught
and converted to a zero default with a truncated reason. -/
def get_serper_buzz (env : Env) (kw : Str) : Int × Str :=
  if !env.serperKey then (0, lc "Serper key not set")
  else
    match serperTry env kw with
    | Except.ok r => r
    | Except.error e => (0, lc "Serper error: " ++ pyTake 60 e)

/-- The Reddit fetcher `get_reddit_buzz`: missing credentials yield 0
without a call; any exception is swallowed to 0. -/
def get_reddit_buzz (env : Env) (kw : Str) : Int :=
  if !env.redditCreds then 0
  else
    match env.redditSearch kw with
    | Except.ok n => n
    | Except.error _ => 0

/-- Search query sent by the X fetcher. -/
def xQuery (kw : Str) : Str := kw ++ lc " lang:en -is:retweet"

/-- The X fetcher `get_x_buzz`: unconfigured client yields the zero
default; any exception is caught and converted with a truncated reason. -/
def get_x_buzz (env : Env) (kw : Str) : Int × Str :=
  if !env.xCreds then (0, lc "X API not configured")
  else
    match env.xSearch (xQuery kw) with
    | Except.ok n => (n, intStr n ++ lc " recent X mentions")
    | Except.error e => (0, lc "X error: " ++ pyTake 60 e)

/-- Trigger words scanned for in monitored accounts' tweets. -/
def signalWords : List Str :=
  [lc "long", lc "position", lc "buying", lc "trade", lc "conviction",
   lc "asymmetric", lc "niche", lc "stock", lc "ticker", lc "buy",
   lc "sell", lc "hold", lc "thesis"]

/-- Formatted signal line for one matching tweet. -/
def tweetLine (username : Str) (tw : Tweet) : Str :=
  lc "@" ++ username ++ lc " (" ++ tw.createdDate ++ lc "): \"" ++
    pyTake 120 (pyLower tw.text) ++ lc "...\"[](https://x.com/" ++ username ++
    lc "/status/" ++ intStr (tw.id : Int) ++ lc ")"

/-- Signal lines harvested from one monitored account; a missing user or
any exception contributes nothing (the bare `except: pass`). -/
def userSignals (env : Env) (username : Str) : List Str :=
  match env.xUser username with
  | Except.error _ => []
  | Except.ok none => []
  | Except.ok (some uid) =>
    match env.xTweets uid with
    | Except.error _ => []
    | Except.ok odata =>
      (odata.getD []).filterMap fun tw =>
        if signalWords.any (fun w => hasSub w (pyLower tw.text)) then
          some (tweetLine username tw)
        else none

/-- The `check_camillo_signals` helper: skipped without X credentials,
otherwise the joined signal lines of the two monitored accounts, or a
fixed no-recent-posts message when none match. -/
def check_camillo_signals (env : Env) : Str :=
  if !env.xCreds then lc "X monitoring skipped (no API keys set)"
  else
    let signals := ([lc "ChrisCamillo", lc "DumbMoneyTV"]).flatMap (userSignals env)
    if signals.isEmpty then
      lc "No recent signal-like posts from @ChrisCamillo or @DumbMoneyTV"
    else pyJoin (lc "\n") signals

/-- Digit grouping of `f-string` format `:,` on the reversed digit list:
a comma after every third digit that is followed by more digits. -/
def grpAux : Nat → Str → Str
  | _, [] => []
  | 0, d :: rest => ',' :: d :: grpAux 2 rest
  | Nat.succ k, d :: rest => d :: grpAux k rest

/-- Python `f-string` integer formatting with thousands separators. -/
def commaFmt (n : Int) : Str :=
  (if n < 0 then lc "-" else []) ++ (grpAux 3 (intStr (n.natAbs : Int)).reverse).reverse

/-- Market data for the enrichment step: `yfin` outcome per ticker. -/
abbrev YfInfo := Option Int × Option Int

/-- The `get_stock_info` helper: formats ticker, price and market cap,
falling back to a fixed unavailable line on any exception. -/
def get_stock_info (yfin : Str → Except PyErr YfInfo) (ticker : Str) : Str :=
  match yfin ticker with
  | Except.error _ => ticker ++ lc " — data unavailable"
  | Except.ok (price, mcap) =>
    let priceS := match price with | some p => intStr p | none => lc "N/A"
    let mcapS := match mcap with | some m => lc "$" ++ commaFmt m | none => lc "N/A"
    ticker ++ lc " | $" ++ priceS ++ lc " | MktCap " ++ mcapS

/-- The payload `analyze_trend` interpolates into the prompt and passes
to the oracle invocation: keyword, aggregated buzz and the raw evidence
readings. -/
structure OracleRequest where
  keyword : Str
  buzz_score : Int
  serper_info : Str
  reddit_score : Int
  x_info : Str

/-- First half of `analyze_trend`: run the three fetchers, aggregate
`total_buzz = serper + reddit * 3 + x * 2`, and assemble the request
record handed to the oracle. -/
def buildRequest (env : Env) (kw : Str) : OracleRequest :=
  let serper := get_serper_buzz env kw
  let reddit := get_reddit_buzz env kw
  let x := get_x_buzz env kw
  { keyword := kw
    buzz_score := serper.1 + reddit * 3 + x.1 * 2
    serper_info := serper.2
    reddit_score := reddit
    x_info := x.2 }

/-- Fence marker checked by `content.startswith`. -/
def fenceJson : Str := lc "```json"

/-- Fence marker used by the second split. -/
def fence3 : Str := lc "```"

/-- The response post-processing of `analyze_trend`: strip whitespace,
and when the content starts with a code fence, slice out the fenced body
(`split("```json")[1].split("```")[0].strip()`).  A missing list index
would be an `IndexError`; both index accesses are total here (`[1]`
exists because the separator is a prefix, `[0]` always exists). -/
def processContent (raw : Str) : Except PyErr Str :=
  let content := pyStrip raw
  if hasPre fenceJson content then
    match pySplit fenceJson content with
    | _ :: second :: _ =>
      match pySplit fence3 second with
      | first :: _ => Except.ok (pyStrip first)
      | [] => Except.error (lc "IndexError: list index out of range")
    | _ => Except.error (lc "IndexError: list index out of range")
  else Except.ok content

/-- One oracle response as consumed from the tape: the invocation either
returns content or raises. -/
abbrev OResp := Except PyErr Str

/-- Body of `analyze_trend`'s `try` block after the invocation: process
the content and `json.loads` it. -/
def jsonAttempt (resp : OResp) : Except PyErr Json :=
  match resp with
  | Except.error e => Except.error e
  | Except.ok raw =>
    match processContent raw with
    | Except.error e => Except.error e
    | Except.ok content => jsonLoads content

/-- Default verdict substituted by `analyze_trend`'s `except` handler:
score 0, thesis `"Error: " + str(e)[:80]`, empty tickers, conviction
low, empty summary. -/
def defaultVerdict (e : PyErr) : Json :=
  Json.obj
    [(lc "asymmetry_score", Json.num 0),
     (lc "thesis", Json.str (lc "Error: " ++ pyTake 80 e)),
     (lc "tickers", Json.arr []),
     (lc "conviction", Json.str (lc "low")),
     (lc "sources_summary", Json.str [])]

/-- The parsing half of `analyze_trend`: the parsed JSON on success
(whatever shape it has), the default verdict on any exception. -/
def analyze_trend (resp : OResp) : Json :=
  match jsonAttempt resp with
  | Except.ok j => j
  | Except.error e => defaultVerdict e

/-- The ticker comprehension of `main`:
`[get_stock_info(t) for t in tickers if t and t.lower() != "none"]`.
Falsy entries are skipped before `.lower()` is reached; a truthy
non-string entry raises `AttributeError` at `.lower()`. -/
def enrichTickers (yfin : Str → Except PyErr YfInfo) :
    List Json → Except PyErr (List Str)
  | [] => Except.ok []
  | t :: ts =>
    if pyTruthy t then
      match t with
      | Json.str s =>
        if pyLower s = lc "none" then enrichTickers yfin ts
        else
          match enrichTickers yfin ts with
          | Except.ok rest => Except.ok (get_stock_info yfin s :: rest)
          | Except.error e => Except.error e
      | _ => Except.error (lc "AttributeError: object has no attribute lower")
    else enrichTickers yfin ts

/-- Market data source of the run, as used inside the keyword loop. -/
abbrev Yfin := Str → Except PyErr YfInfo

/-- One iteration of `main`'s keyword loop, given the keyword's parsed
analysis: read the score, compare against the threshold 7, and for a
qualifying keyword enrich the tickers and produce the appended block
(header, thesis, buzz, optional plays, separator) together with the
found-signal flag. -/
def processKeyword (yfin : Yfin) (kw : Str) (analysis : Json) :
    Except PyErr (List Str × Bool) :=
  match pyGet analysis (lc "asymmetry_score") (Json.num 0) with
  | Except.error e => Except.error e
  | Except.ok scoreJ =>
    match pyGeInt scoreJ 7 with
    | Except.error e => Except.error e
    | Except.ok q =>
      if q then
        match pyGet analysis (lc "tickers") (Json.arr []) with
        | Except.error e => Except.error e
        | Except.ok tickersJ =>
          match pyIter tickersJ with
          | Except.error e => Except.error e
          | Except.ok telems =>
            match enrichTickers yfin telems with
            | Except.error e => Except.error e
            | Except.ok infos =>
              match pyGet analysis (lc "conviction") (Json.str (lc "unknown")) with
              | Except.error e => Except.error e
              | Except.ok convJ =>
                match pyGet analysis (lc "thesis") (Json.str (lc "No thesis")) with
                | Except.error e => Except.error e
                | Except.ok thesisJ =>
                  match pyGet analysis (lc "sources_summary") (Json.str (lc "No sources")) with
                  | Except.error e => Except.error e
                  | Except.ok srcJ =>
                    Except.ok ([lc "\n🔥 **" ++ pyUpper kw ++ lc "** — Score: " ++
                        pyStr scoreJ ++ lc "/10 (" ++ pyStr convJ ++ lc ")",
                      lc "Thesis: " ++ pyStr thesisJ,
                      lc "Buzz: " ++ pyStr srcJ] ++
                      (if infos.isEmpty then []
                       else [lc "Plays:\n" ++ pyJoin (lc "\n") infos]) ++
                      [List.replicate 60 '-'], true)
      else Except.ok ([], false)

/-- The fixed keyword list. -/
def KEYWORDS : List Str :=
  [lc "basil mask viral", lc "kojic acid tiktok", lc "peptide lotion trend",
   lc "celsius energy drink", lc "crocs comfort 2026", lc "humanoid robot home",
   lc "ozempic alternative natural", lc "pickleball ontario", lc "rucking trend canada",
   lc "tim hortons viral item", lc "canadian cottage trend", lc "solar lawn mower"]

/-- The keyword loop of `main`: each keyword consumes exactly one oracle
response from the tape, accumulating appended block lines and the
found-signal flag; an uncaught exception aborts the loop. -/
def mainLoop (yfin : Yfin) : List Str → List OResp → Except PyErr (List Str × Bool)
  | [], _ => Except.ok ([], false)
  | kw :: kws, rs =>
    match processKeyword yfin kw
        (analyze_trend (rs.headD (Except.error (lc "model: oracle tape exhausted")))) with
    | Except.error e => Except.error e
    | Except.ok (ls, f₁) =>
      match mainLoop yfin kws rs.tail with
      | Except.error e => Except.error e
      | Except.ok (ls₂, f₂) => Except.ok (ls ++ ls₂, f₁ || f₂)

/-- Fixed first report line. -/
def headerLine : Str := lc "**Daily Asymmetric Scan Report** (Serper + Reddit + X)"

/-- Fallback line appended when no keyword qualified. -/
def fallbackLine : Str := lc "\nNo high-asymmetry signals today — keep scanning!"

/-- The Camillo-check line appended after the keyword loop. -/
def camilloLine (env : Env) : Str :=
  lc "\n**Camillo & DumbMoney X Check**:\n" ++ check_camillo_signals env

/-- The report assembly of `main`: header, accumulated keyword blocks,
the Camillo-check line, and the fallback line when nothing was found.
An exception escaping the loop aborts the run with no report. -/
def runReport (env : Env) (yfin : Yfin) (tape : List OResp) :
    Except PyErr (List Str) :=
  match mainLoop yfin KEYWORDS tape with
  | Except.error e => Except.error e
  | Except.ok (blocks, found) =>
    Except.ok (([headerLine] ++ blocks ++ [camilloLine env]) ++
      (if found then [] else [fallbackLine]))

/-- The delivered payload: `"\n".join(report_lines)` (sent to the webhook
when configured, printed otherwise — identical text either way). -/
def reportText (env : Env) (yfin : Yfin) (tape : List OResp) : Except PyErr Str :=
  match runReport env yfin tape with
  | Except.error e => Except.error e
  | Except.ok ls => Except.ok (pyJoin (lc "\n") ls)

/-- One keyword step of the loop, as a function of the keyword's oracle
response. -/
def stepOf (yfin : Yfin) (kw : Str) (r : OResp) : Except PyErr (List Str × Bool) :=
  processKeyword yfin kw (analyze_trend r)

/-- Block lines a keyword contributes to the report. -/
def blockOf (yfin : Yfin) (kw : Str) (r : OResp) : List Str :=
  match stepOf yfin kw r with
  | Except.ok (ls, _) => ls
  | Except.error _ => []

/-- Whether a keyword's verdict qualifies (sets the found-signal flag). -/
def qualifiesB (yfin : Yfin) (kw : Str) (r : OResp) : Bool :=
  match stepOf yfin kw r with
  | Except.ok (_, f) => f
  | Except.error _ => false

/-- Whether a keyword step completes without an uncaught exception. -/
def stepOk (yfin : Yfin) (kw : Str) (r : OResp) : Bool :=
  match stepOf yfin kw r with
  | Except.ok _ => true
  | Except.error _ => false

/-- Whether a keyword step completes below the threshold: no block lines
and no signal flag. -/
def isLowStep (yfin : Yfin) (kw : Str) (r : OResp) : Bool :=
  match stepOf yfin kw r with
  | Except.ok ([], false) => true
  | _ => false

/-- The threshold comparison a keyword's analysis yields: the boolean of
`analysis.get("asymmetry_score", 0) >= 7` when that evaluates, `false`
when it raises. -/
def scoreCheck (r : OResp) : Bool :=
  match pyGet (analyze_trend r) (lc "asymmetry_score") (Json.num 0) with
  | Except.error _ => false
  | Except.ok sj =>
    match pyGeInt sj 7 with
    | Except.error _ => false
    | Except.ok b => b

/-- Whether `analyze_trend`'s `try` body raises (oracle failure or parse
failure), triggering the default verdict. -/
def jsonFails (r : OResp) : Bool :=
  match jsonAttempt r with
  | Except.error _ => true
  | Except.ok _ => false

/-- A ticker-list element the enrichment comprehension handles without
raising: falsy (skipped), or a string. -/
def tickerElemOk (j : Json) : Bool :=
  if pyTruthy j then (match j with | Json.str _ => true | _ => false) else true

/-- An analysis value the keyword loop handles without raising: a dict
whose score is comparable against 7, and — when it qualifies — whose
ticker value is iterable with well-behaved elements. -/
def shapeSafe (a : Json) : Bool :=
  match a with
  | Json.obj _ =>
    (match pyGet a (lc "asymmetry_score") (Json.num 0) with
     | Except.error _ => false
     | Except.ok sj =>
       match pyGeInt sj 7 with
       | Except.error _ => false
       | Except.ok q =>
         if q then
           match pyGet a (lc "tickers") (Json.arr []) with
           | Except.error _ => false
           | Except.ok tj =>
             match pyIter tj with
             | Except.error _ => false
             | Except.ok els => els.all tickerElemOk
         else true)
  | _ => false

/-- An oracle response the keyword loop survives: either its parse fails
(the default verdict is substituted) or the parsed value is shape-safe. -/
def safeResp (r : OResp) : Bool :=
  match jsonAttempt r with
  | Except.error _ => true
  | Except.ok j => shapeSafe j

/-- The ticker strings the comprehension keeps: non-empty and not the
case-insensitive sentinel. -/
def tickerKeep (s : Str) : Bool :=
  if s = [] then false else if pyLower s = lc "none" then false else true

/-- A fenced oracle payload, as in the spec scenario. -/
def fenceWrap (p : Str) : Str := lc "```json\n" ++ p ++ lc "\n```"

/-- Marker identifying the Camillo-check line. -/
def camilloMark : Str := lc "\n**Camillo"

/-- A fixed upstream failure used by the concrete environments. -/
def netErr : PyErr := lc "network unreachable"

/-- Concrete run environment with nothing configured. -/
def cenv0 : Env :=
  { serperKey := false, serperHttp := fun _ => Except.error netErr
    redditCreds := false, redditSearch := fun _ => Except.error netErr
    xCreds := false, xSearch := fun _ => Except.error netErr
    xUser := fun _ => Except.error netErr, xTweets := fun _ => Except.error netErr }

/-- Concrete market-data source that always fails. -/
def yf0 : Yfin := fun _ => Except.error netErr

/-- Oracle response representing a failed invocation. -/
def respDown : OResp := Except.error (lc "oracle down")

/-- Concrete tape with every invocation failing. -/
def tape0 : List OResp := List.replicate 12 respDown

/-- Oracle response with score 9 and no other fields. -/
def respHigh : OResp := Except.ok (lc "\x7b\"asymmetry_score\": 9\x7d")

/-- Concrete tape whose first keyword qualifies. -/
def tapeQ : List OResp := respHigh :: List.replicate 11 respDown

/-- Decoded search-provider body with three organic results. -/
def data18 : Json :=
  Json.obj [(lc "organic", Json.arr [Json.null, Json.null, Json.null])]

/-- Concrete environment for the buzz-score scenario: search score 3,
Reddit count 5, social count 0. -/
def cenv18 : Env :=
  { serperKey := true, serperHttp := fun _ => Except.ok data18
    redditCreds := true, redditSearch := fun _ => Except.ok 5
    xCreds := true, xSearch := fun _ => Except.ok 0
    xUser := fun _ => Except.error netErr, xTweets := fun _ => Except.error netErr }

/-- Concrete market-data source that always answers. -/
def yfConst : Yfin := fun _ => Except.ok (some 12, some 1234567)

/-- Concrete environment whose search call raises. -/
def cenvSerpErr : Env :=
  { serperKey := true, serperHttp := fun _ => Except.error (lc "boom")
    redditCreds := false, redditSearch := fun _ => Except.error netErr
    xCreds := false, xSearch := fun _ => Except.error netErr
    xUser := fun _ => Except.error netErr, xTweets := fun _ => Except.error netErr }

/-- Characterisation of the prefix test. -/
theorem hasPre_ex (p l : Str) : hasPre p l = true ↔ ∃ t, l = p ++ t := by
  induction p generalizing l with
  | nil =>
    simp only [hasPre, List.nil_append, true_iff]
    exact ⟨l, rfl⟩
  | cons a p ih =>
    cases l with
    | nil => simp [hasPre]
    | cons b l₂ =>
      simp only [hasPre, Bool.and_eq_true, beq_iff_eq, ih, List.cons_append]
      constructor
      · rintro ⟨rfl, t, rfl⟩
        exact ⟨t, rfl⟩
      · rintro ⟨t, ht⟩
        injection ht with h₁ h₂
        exact ⟨h₁.symm, t, h₂⟩

/-- A list starts with itself. -/
theorem hasPre_self_app (p t : Str) : hasPre p (p ++ t) = true :=
  (hasPre_ex p (p ++ t)).mpr ⟨t, rfl⟩

/-- Transitivity of the prefix test. -/
theorem hasPre_trans {a b c : Str} (h₁ : hasPre a b = true) (h₂ : hasPre b c = true) :
    hasPre a c = true := by
  obtain ⟨t₁, rfl⟩ := (hasPre_ex a b).mp h₁
  obtain ⟨t₂, rfl⟩ := (hasPre_ex (a ++ t₁) c).mp h₂
  exact (hasPre_ex a ((a ++ t₁) ++ t₂)).mpr ⟨t₁ ++ t₂, by simp⟩

/-- A short prefix of an appended list is a prefix of the left part. -/
theorem hasPre_append_left {s t u : Str} (h : hasPre s (t ++ u) = true)
    (hl : s.length ≤ t.length) : hasPre s t = true := by
  obtain ⟨r, hr⟩ := (hasPre_ex s (t ++ u)).mp h
  have h₁ : (t ++ u).take s.length = ((s ++ r).take s.length) := by rw [hr]
  rw [List.take_left] at h₁
  rw [List.take_append_of_le_length hl] at h₁
  refine (hasPre_ex s t).mpr ⟨t.drop s.length, ?_⟩
  conv_lhs => rw [← List.take_append_drop s.length t]
  rw [h₁]

/-- A long prefix of an appended list is extended by the left part. -/
theorem hasPre_long {s t u : Str} (h : hasPre s (t ++ u) = true)
    (hl : t.length < s.length) : hasPre t s = true := by
  obtain ⟨r, hr⟩ := (hasPre_ex s (t ++ u)).mp h
  have h₁ : (t ++ u).take s.length = ((s ++ r).take s.length) := by rw [hr]
  rw [List.take_left] at h₁
  rw [List.take_append_eq_append_take, List.take_of_length_le (Nat.le_of_lt hl)] at h₁
  exact (hasPre_ex t s).mpr ⟨u.take (s.length - t.length), h₁.symm⟩

/-- The head of a list with a nonempty prefix belongs to that prefix. -/
theorem hasPre_head_mem {s : Str} {c : Char} {x : Str}
    (h : hasPre s (c :: x) = true) (hs : s ≠ []) : c ∈ s := by
  cases s with
  | nil => exact absurd rfl hs
  | cons a s₂ =>
    have ha : a = c := by
      have := (Bool.and_eq_true _ _).mp h
      exact beq_iff_eq.mp this.1
    rw [ha]
    exact List.mem_cons_self c s₂

/-- A literal that disagrees with a longer literal cannot begin a list
starting with the shorter one. -/
theorem hasPre_lit_false {A B : Str} (hf : hasPre B A = false)
    (hl : B.length < A.length) (t : Str) : hasPre A (B ++ t) = false := by
  by_contra h
  have h₁ : hasPre A (B ++ t) = true := by
    cases hx : hasPre A (B ++ t) with
    | false => exact absurd hx h
    | true => rfl
  have := hasPre_long h₁ hl
  rw [hf] at this
  exact Bool.noConfusion this

/-- A prefix occurrence is a substring occurrence. -/
theorem hasSub_of_pre {s l : Str} (h : hasPre s l = true) : hasSub s l = true := by
  cases l with
  | nil => simpa [hasSub] using h
  | cons c l₂ => simp [hasSub, h]

/-- Substring occurrences survive appending on the right. -/
theorem hasSub_append_right {s l : Str} (h : hasSub s l = true) (y : Str) :
    hasSub s (l ++ y) = true := by
  induction l with
  | nil =>
    have hs : s = [] := by
      obtain ⟨t, ht⟩ := (hasPre_ex s []).mp (by simpa [hasSub] using h)
      cases s with
      | nil => rfl
      | cons a s₂ => exact absurd ht (by simp)
    subst hs
    exact hasSub_of_pre (by simp [hasPre_ex])
  | cons c l₂ ih =>
    simp only [hasSub, Bool.or_eq_true] at h
    rcases h with h | h
    · obtain ⟨t, ht⟩ := (hasPre_ex s (c :: l₂)).mp h
      have : hasPre s ((c :: l₂) ++ y) = true :=
        (hasPre_ex s ((c :: l₂) ++ y)).mpr ⟨t ++ y, by rw [ht]; simp⟩
      cases y with
      | nil => simpa using hasSub_of_pre this
      | cons b y₂ => exact hasSub_of_pre this
    · have := ih h
      simp only [List.cons_append, hasSub, Bool.or_eq_true]
      exact Or.inr this

/-- Substring occurrences survive appending on the left. -/
theorem hasSub_append_left {s l : Str} (h : hasSub s l = true) (y : Str) :
    hasSub s (y ++ l) = true := by
  induction y with
  | nil => exact h
  | cons c y₂ ih =>
    simp only [List.cons_append, hasSub, Bool.or_eq_true]
    exact Or.inr ih

/-- A substring occurrence of a longer pattern yields one of each of its
prefixes. -/
theorem hasSub_mono_pre {a b l : Str} (hab : hasPre a b = true)
    (h : hasSub b l = true) : hasSub a l = true := by
  induction l with
  | nil => simpa [hasSub] using hasPre_trans hab (by simpa [hasSub] using h)
  | cons c l₂ ih =>
    simp only [hasSub, Bool.or_eq_true] at h ⊢
    rcases h with h | h
    · exact Or.inl (hasPre_trans hab h)
    · exact Or.inr (ih h)

/-- Decompose absence of a substring at a cons cell. -/
theorem hasSub_cons_split {s : Str} {c : Char} {l : Str}
    (h : hasSub s (c :: l) = false) :
    hasPre s (c :: l) = false ∧ hasSub s l = false := by
  have h₂ : (hasPre s (c :: l) || hasSub s l) = false := h
  constructor
  · cases hx : hasPre s (c :: l) with
    | false => rfl
    | true => rw [hx] at h₂; simp at h₂
  · cases hx : hasSub s l with
    | false => rfl
    | true => rw [hx] at h₂; simp at h₂

/-- Appending a block that begins with a character foreign to the pattern
creates no new occurrence. -/
theorem hasSub_append_end {s l : Str} {nl : Char} {T : Str}
    (hnl : nl ∉ s) (h₁ : hasSub s l = false) (h₂ : hasSub s (nl :: T) = false) :
    hasSub s (l ++ (nl :: T)) = false := by
  induction l with
  | nil => simpa using h₂
  | cons c l₂ ih =>
    obtain ⟨hp, hs⟩ := hasSub_cons_split h₁
    have ihh := ih hs
    have hpre : hasPre s ((c :: l₂) ++ (nl :: T)) = false := by
      cases hx : hasPre s ((c :: l₂) ++ (nl :: T)) with
      | false => rfl
      | true =>
        exfalso
        by_cases hlen : s.length ≤ (c :: l₂).length
        · have := hasSub_of_pre (hasPre_append_left hx hlen)
          rw [h₁] at this
          exact Bool.noConfusion this
        · obtain ⟨r, hr⟩ := (hasPre_ex s ((c :: l₂) ++ (nl :: T))).mp hx
          have h₃ : ((c :: l₂) ++ (nl :: T)).take s.length = (s ++ r).take s.length := by
            rw [hr]
          rw [List.take_left, List.take_append_eq_append_take,
            List.take_of_length_le (Nat.le_of_lt (Nat.lt_of_not_le hlen))] at h₃
          have hk : ∃ k, s.length - (c :: l₂).length = k + 1 := by
            refine ⟨s.length - (c :: l₂).length - 1, ?_⟩
            omega
          obtain ⟨k, hk⟩ := hk
          rw [hk] at h₃
          apply hnl
          rw [← h₃]
          simp
    calc hasSub s ((c :: l₂) ++ (nl :: T))
        = (hasPre s ((c :: l₂) ++ (nl :: T)) || hasSub s (l₂ ++ (nl :: T))) := rfl
      _ = false := by rw [hpre, ihh]; rfl

/-- A substring of the stripped list occurs in the original. -/
theorem hasSub_strip {s p : Str} (h : hasSub s (pyStrip p) = true) :
    hasSub s p = true := by
  have hD : p = p.takeWhile pyIsSpace ++ p.dropWhile pyIsSpace :=
    (List.takeWhile_append_dropWhile _ _).symm
  have hR : (p.dropWhile pyIsSpace) =
      pyStrip p ++ ((p.dropWhile pyIsSpace).reverse.takeWhile pyIsSpace).reverse := by
    conv_lhs => rw [← List.reverse_reverse (p.dropWhile pyIsSpace)]
    conv_lhs =>
      rw [show (p.dropWhile pyIsSpace).reverse =
        (p.dropWhile pyIsSpace).reverse.takeWhile pyIsSpace ++
          (p.dropWhile pyIsSpace).reverse.dropWhile pyIsSpace from
        (List.takeWhile_append_dropWhile _ _).symm]
    rw [List.reverse_append]
    rfl
  have h₁ := hasSub_append_right h
    ((p.dropWhile pyIsSpace).reverse.takeWhile pyIsSpace).reverse
  rw [← hR] at h₁
  have h₂ := hasSub_append_left h₁ (p.takeWhile pyIsSpace)
  rw [← hD] at h₂
  exact h₂

/-- Dropping over an all-satisfying block continues past it. -/
theorem dropWhile_all_prepend {f : Char → Bool} {s : Str}
    (hs : ∀ c ∈ s, f c = true) (l : Str) :
    (s ++ l).dropWhile f = l.dropWhile f := by
  induction s with
  | nil => rfl
  | cons c s₂ ih =>
    have hc : f c = true := hs c (List.mem_cons_self c s₂)
    simp only [List.cons_append, List.dropWhile_cons, hc, if_true]
    exact ih (fun a ha => hs a (List.mem_cons_of_mem c ha))

/-- How `dropWhile` distributes over an append. -/
theorem dropWhile_app (f : Char → Bool) (l s : Str) :
    (l ++ s).dropWhile f =
      if (l.dropWhile f).isEmpty then s.dropWhile f else l.dropWhile f ++ s := by
  induction l with
  | nil => simp
  | cons c l₂ ih =>
    simp only [List.cons_append, List.dropWhile_cons]
    cases hc : f c with
    | true => simpa [hc] using ih
    | false => simp [hc, List.isEmpty]

/-- Stripping ignores an all-space block on the left. -/
theorem strip_prepend_space {s l : Str} (hs : ∀ c ∈ s, pyIsSpace c = true) :
    pyStrip (s ++ l) = pyStrip l := by
  simp only [pyStrip, dropWhile_all_prepend hs]

/-- Stripping ignores an all-space block on the right. -/
theorem strip_append_space {l s : Str} (hs : ∀ c ∈ s, pyIsSpace c = true) :
    pyStrip (l ++ s) = pyStrip l := by
  have hse : s.dropWhile pyIsSpace = [] := by
    have := dropWhile_all_prepend hs ([] : Str)
    simpa using this
  simp only [pyStrip]
  rw [dropWhile_app]
  by_cases he : (l.dropWhile pyIsSpace).isEmpty
  · rw [if_pos he, hse]
    have hle : l.dropWhile pyIsSpace = [] := by
      cases hx : l.dropWhile pyIsSpace with
      | nil => rfl
      | cons a b => rw [hx] at he; simp [List.isEmpty] at he
    rw [hle]
  · rw [if_neg he, List.reverse_append]
    rw [dropWhile_all_prepend (fun c hc => hs c (List.mem_reverse.mp hc))]

/-- A list whose ends are non-space survives stripping. -/
theorem strip_ns {x m y : Str} (hx : x ≠ []) (hy : y ≠ [])
    (hhx : pyIsSpace (x.headD ' ') = false)
    (hhy : pyIsSpace (y.reverse.headD ' ') = false) :
    pyStrip (x ++ m ++ y) = x ++ m ++ y := by
  cases x with
  | nil => exact absurd rfl hx
  | cons a x₂ =>
    have ha : pyIsSpace a = false := hhx
    cases hyr : y.reverse with
    | nil => exact absurd (by simpa using congrArg List.reverse hyr) hy
    | cons b yr =>
      have hb : pyIsSpace b = false := by rw [hyr] at hhy; exact hhy
      have d₁ : ((a :: x₂) ++ m ++ y).dropWhile pyIsSpace = (a :: x₂) ++ m ++ y := by
        rw [show (a :: x₂) ++ m ++ y = a :: (x₂ ++ m ++ y) by simp]
        simp [List.dropWhile_cons, ha]
      have d₂ : ((a :: x₂) ++ m ++ y).reverse.dropWhile pyIsSpace =
          ((a :: x₂) ++ m ++ y).reverse := by
        rw [show ((a :: x₂) ++ m ++ y).reverse =
            b :: (yr ++ ((a :: x₂) ++ m).reverse) by
          rw [List.reverse_append, hyr]; simp]
        simp [List.dropWhile_cons, hb]
      rw [pyStrip, d₁, d₂, List.reverse_reverse]

/-- Splitting a list free of the separator yields one piece. -/
theorem splitAux_no_occ {sep : Str} :
    ∀ (l : Str) (fuel : Nat) (acc : Str), l.length ≤ fuel → hasSub sep l = false →
    pySplitAux sep fuel l acc = [acc.reverse ++ l] := by
  intro l
  induction l with
  | nil =>
    intro fuel acc _ _
    cases fuel <;> simp [pySplitAux]
  | cons c l₂ ih =>
    intro fuel acc hlen h
    obtain ⟨hp, hs⟩ := hasSub_cons_split h
    cases fuel with
    | zero => simp at hlen
    | succ f =>
      rw [pySplitAux, if_neg (by rw [hp]; exact Bool.false_ne_true),
        ih f (c :: acc) (by simpa using hlen) hs]
      simp

/-- Splitting a list that begins with the separator cuts there first. -/
theorem splitAux_head {sep : Str} (hsep : sep ≠ []) (t : Str) (fuel : Nat)
    (acc : Str) (hfuel : 1 ≤ fuel) :
    pySplitAux sep fuel (sep ++ t) acc =
      acc.reverse :: pySplitAux sep (fuel - 1) t [] := by
  cases sep with
  | nil => exact absurd rfl hsep
  | cons s₀ sr =>
    cases fuel with
    | zero => simp at hfuel
    | succ f =>
      rw [show (s₀ :: sr) ++ t = s₀ :: (sr ++ t) by simp]
      rw [pySplitAux, if_pos ?_]
      · rw [show (s₀ :: sr).length - 1 = sr.length by simp]
        rw [List.drop_left]
        simp
      · rw [show s₀ :: (sr ++ t) = (s₀ :: sr) ++ t by simp]
        exact hasPre_self_app (s₀ :: sr) t

/-- Splitting the separator itself yields the accumulated piece and an
empty final piece. -/
theorem splitAux_self {sep : Str} (hsep : sep ≠ []) (fuel : Nat) (acc : Str)
    (hfuel : 1 ≤ fuel) : pySplitAux sep fuel sep acc = [acc.reverse, []] := by
  have h := splitAux_head hsep [] fuel acc hfuel
  rw [List.append_nil] at h
  rw [h]
  cases fuel - 1 <;> rfl

/-- Splitting a list whose only separator occurrence closes it yields the
body and an empty final piece. -/
theorem splitAux_end {sep : Str} (hsep : sep ≠ []) {nl : Char} (hnl : nl ∉ sep) :
    ∀ (u : Str) (fuel : Nat) (acc : Str),
    (u ++ [nl] ++ sep).length ≤ fuel →
    hasSub sep (u ++ [nl]) = false →
    pySplitAux sep fuel ((u ++ [nl]) ++ sep) acc = [acc.reverse ++ (u ++ [nl]), []] := by
  have hseplen : 1 ≤ sep.length := by
    cases sep with
    | nil => exact absurd rfl hsep
    | cons a b => simp
  intro u
  induction u with
  | nil =>
    intro fuel acc hlen _
    cases fuel with
    | zero =>
      exfalso
      simp only [List.length_append, List.length_cons, List.length_nil,
        Nat.le_zero] at hlen
      omega
    | succ f =>
      rw [show (([] : Str) ++ [nl]) ++ sep = nl :: sep by simp]
      rw [pySplitAux, if_neg ?_]
      · rw [splitAux_self hsep f (nl :: acc) ?_]
        · simp
        · simp only [List.length_append, List.length_cons, List.length_nil] at hlen
          omega
      · intro hx
        exact hnl (hasPre_head_mem hx hsep)
  | cons c u₂ ih =>
    intro fuel acc hlen h
    have h₂ : hasSub sep (u₂ ++ [nl]) = false := by
      have := hasSub_cons_split (by
        rw [show (c :: u₂) ++ [nl] = c :: (u₂ ++ [nl]) by simp] at h
        exact h)
      exact this.2
    cases fuel with
    | zero =>
      exfalso
      simp only [List.length_append, List.length_cons, Nat.le_zero] at hlen
      omega
    | succ f =>
      rw [show ((c :: u₂) ++ [nl]) ++ sep = c :: ((u₂ ++ [nl]) ++ sep) by simp]
      rw [pySplitAux, if_neg ?_]
      · rw [ih f (c :: acc) ?_ h₂]
        · simp
        · simp only [List.length_append, List.length_cons, List.length_nil] at hlen ⊢
          omega
      · intro hx
        have hx₂ : hasPre sep (((c :: u₂) ++ [nl]) ++ sep) = true := by
          rw [show ((c :: u₂) ++ [nl]) ++ sep = c :: ((u₂ ++ [nl]) ++ sep) by simp]
          exact hx
        by_cases hlen₂ : sep.length ≤ ((c :: u₂) ++ [nl]).length
        · have := hasSub_of_pre (hasPre_append_left hx₂ hlen₂)
          rw [h] at this
          exact Bool.noConfusion this
        · obtain ⟨r, hr⟩ := (hasPre_ex sep (((c :: u₂) ++ [nl]) ++ sep)).mp hx₂
          have h₃ : (((c :: u₂) ++ [nl]) ++ sep).take sep.length =
              (sep ++ r).take sep.length := by rw [hr]
          rw [List.take_left, List.take_append_eq_append_take,
            List.take_of_length_le (Nat.le_of_lt (Nat.lt_of_not_le hlen₂))] at h₃
          apply hnl
          rw [← h₃]
          simp

/-- Decomposition of a fenced payload for the strip step. -/
theorem fenceWrap_decomp₁ (p : Str) :
    fenceWrap p = fence3 ++ (lc "json\n" ++ p ++ lc "\n") ++ fence3 := by
  rw [fenceWrap, show lc "```json\n" = fence3 ++ lc "json\n" by decide,
    show lc "\n```" = lc "\n" ++ fence3 by decide]
  simp [List.append_assoc]

/-- Decomposition of a fenced payload for the first split. -/
theorem fenceWrap_decomp₂ (p : Str) :
    fenceWrap p = fenceJson ++ ((lc "\n" ++ p) ++ (lc "\n" ++ fence3)) := by
  rw [fenceWrap, show lc "```json\n" = fenceJson ++ lc "\n" by decide,
    show lc "\n```" = lc "\n" ++ fence3 by decide]
  simp [List.append_assoc]

/-- Stripping leaves a fenced payload unchanged. -/
theorem strip_fenceWrap (p : Str) : pyStrip (fenceWrap p) = fenceWrap p := by
  rw [fenceWrap_decomp₁]
  exact strip_ns (by decide) (by decide) (by decide) (by decide)

/-- A payload free of the fence marker has no occurrence of the longer
fence token either, once a newline is prepended. -/
theorem no_fenceJson_in_body {p : Str} (h : hasSub fence3 p = false) :
    hasSub fenceJson ((lc "\n" ++ p) ++ (lc "\n" ++ fence3)) = false := by
  have hp : hasSub fenceJson p = false := by
    cases hx : hasSub fenceJson p with
    | false => rfl
    | true =>
      have := hasSub_mono_pre (show hasPre fence3 fenceJson = true by decide) hx
      rw [h] at this
      exact Bool.noConfusion this
  have h₁ : hasSub fenceJson (lc "\n" ++ p) = false := by
    show hasSub fenceJson ('\n' :: p) = false
    have hpre : hasPre fenceJson ('\n' :: p) = false := by
      cases hx : hasPre fenceJson ('\n' :: p) with
      | false => rfl
      | true => exact absurd (hasPre_head_mem hx (by decide)) (by decide)
    calc hasSub fenceJson ('\n' :: p)
        = (hasPre fenceJson ('\n' :: p) || hasSub fenceJson p) := rfl
      _ = false := by rw [hpre, hp]; rfl
  exact hasSub_append_end (by decide) h₁ (by decide)

/-- A payload free of the fence marker keeps the marker out of the fenced
body up to the closing newline. -/
theorem no_fence3_in_body {p : Str} (h : hasSub fence3 p = false) :
    hasSub fence3 ((lc "\n" ++ p) ++ [ '\n' ]) = false := by
  have h₁ : hasSub fence3 (lc "\n" ++ p) = false := by
    show hasSub fence3 ('\n' :: p) = false
    have hpre : hasPre fence3 ('\n' :: p) = false := by
      cases hx : hasPre fence3 ('\n' :: p) with
      | false => rfl
      | true => exact absurd (hasPre_head_mem hx (by decide)) (by decide)
    calc hasSub fence3 ('\n' :: p)
        = (hasPre fence3 ('\n' :: p) || hasSub fence3 p) := rfl
      _ = false := by rw [hpre, h]; rfl
  exact hasSub_append_end (by decide) h₁ (by decide)

/-- The fenced-payload slicing yields the stripped payload itself. -/
theorem processContent_fenced {p : Str} (h : hasSub fence3 p = false) :
    processContent (fenceWrap p) = Except.ok (pyStrip p) := by
  have hjlen : fenceJson.length = 7 := by decide
  have hs₁ : pySplit fenceJson (fenceWrap p) =
      [[], (lc "\n" ++ p) ++ (lc "\n" ++ fence3)] := by
    rw [pySplit, if_neg (by decide), fenceWrap_decomp₂,
      splitAux_head (by decide) _ _ []
        (by simp only [List.length_append, hjlen]; omega),
      splitAux_no_occ _ _ []
        (by simp only [List.length_append, hjlen]; omega)
        (no_fenceJson_in_body h)]
    rfl
  have hs₂ : pySplit fence3 ((lc "\n" ++ p) ++ (lc "\n" ++ fence3)) =
      [(lc "\n" ++ p) ++ [ '\n' ], []] := by
    rw [pySplit, if_neg (by decide),
      show (lc "\n" ++ p) ++ (lc "\n" ++ fence3) =
        (((lc "\n" ++ p) ++ [ '\n' ]) ++ fence3) by
          rw [show lc "\n" = ([ '\n' ] : Str) by decide]
          simp [List.append_assoc],
      splitAux_end (by decide) (by decide) ((lc "\n" ++ p)) _ []
        (Nat.le_refl _) (no_fence3_in_body h)]
    rfl
  have hstrip : pyStrip ((lc "\n" ++ p) ++ [ '\n' ]) = pyStrip p := by
    rw [strip_append_space (by decide)]
    rw [show lc "\n" = ([ '\n' ] : Str) by decide]
    exact strip_prepend_space (by decide)
  have hpre : hasPre fenceJson (fenceWrap p) = true := by
    rw [fenceWrap_decomp₂]
    exact hasPre_self_app _ _
  rw [processContent]
  simp only [strip_fenceWrap]
  rw [if_pos hpre, hs₁]
  simp only [hs₂, hstrip]

/-- An unfenced payload free of the fence marker takes the plain branch. -/
theorem processContent_unfenced {p : Str} (h : hasSub fence3 p = false) :
    processContent p = Except.ok (pyStrip p) := by
  rw [processContent]
  rw [if_neg ?_]
  intro hx
  have h₁ := hasSub_of_pre hx
  have h₂ := hasSub_mono_pre (show hasPre fence3 fenceJson = true by decide) h₁
  have h₃ := hasSub_strip h₂
  rw [h] at h₃
  exact Bool.noConfusion h₃

/-- A line starting with a short disagreeing literal is not the
Camillo-check line. -/
theorem noMark_of_lit {B : Str} (hB : hasPre B camilloMark = false)
    (hl : B.length < camilloMark.length) (t : Str) :
    hasPre camilloMark (B ++ t) = false :=
  hasPre_lit_false hB hl t

/-- The default verdict scores 0, so its keyword appends nothing. -/
theorem processKeyword_default (y : Yfin) (kw : Str) (e : PyErr) :
    processKeyword y kw (defaultVerdict e) = Except.ok ([], false) := rfl

/-- A completed keyword step either contributes nothing with no signal,
or signals with a block of four or five lines, none of which begins like
the Camillo-check line. -/
theorem processKeyword_ok_cases {y : Yfin} {kw : Str} {a : Json} {ls : List Str} {f : Bool}
    (h : processKeyword y kw a = Except.ok (ls, f)) :
    (ls = [] ∧ f = false) ∨
    (f = true ∧ (ls.length = 4 ∨ ls.length = 5) ∧
      ∀ l ∈ ls, hasPre camilloMark l = false) := by
  rw [processKeyword] at h
  split at h
  · exact absurd h (by simp)
  · split at h
    · exact absurd h (by simp)
    · split at h
      · split at h
        · exact absurd h (by simp)
        · split at h
          · exact absurd h (by simp)
          · split at h
            · exact absurd h (by simp)
            · split at h
              · exact absurd h (by simp)
              · split at h
                · exact absurd h (by simp)
                · split at h
                  · exact absurd h (by simp)
                  · injection h with h₉
                    injection h₉ with hls hf
                    refine Or.inr ⟨hf.symm, ?_, ?_⟩
                    · rw [← hls]
                      split <;> simp
                    · intro l hl
                      rw [← hls] at hl
                      split at hl <;>
                        simp only [List.append_nil, List.nil_append, List.cons_append,
                          List.mem_cons, List.not_mem_nil, or_false] at hl
                      · rcases hl with rfl | rfl | rfl | rfl
                        · simp only [List.append_assoc]
                          exact noMark_of_lit (by decide) (by decide) _
                        · exact noMark_of_lit (by decide) (by decide) _
                        · exact noMark_of_lit (by decide) (by decide) _
                        · decide
                      · rcases hl with rfl | rfl | rfl | rfl | rfl
                        · simp only [List.append_assoc]
                          exact noMark_of_lit (by decide) (by decide) _
                        · exact noMark_of_lit (by decide) (by decide) _
                        · exact noMark_of_lit (by decide) (by decide) _
                        · exact noMark_of_lit (by decide) (by decide) _
                        · decide
      · injection h with h₉
        injection h₉ with hls hf
        exact Or.inl ⟨hls.symm, hf.symm⟩

/-- Unfolding of one loop iteration. -/
theorem mainLoop_cons (y : Yfin) (kw : Str) (kws : List Str) (r : OResp)
    (rs : List OResp) :
    mainLoop y (kw :: kws) (r :: rs) =
      match stepOf y kw r with
      | Except.error e => Except.error e
      | Except.ok (ls, f₁) =>
        match mainLoop y kws rs with
        | Except.error e => Except.error e
        | Except.ok (ls₂, f₂) => Except.ok (ls ++ ls₂, f₁ || f₂) := rfl

/-- No block line of the keyword loop begins like the Camillo-check
line. -/
theorem mainLoop_no_marker {y : Yfin} :
    ∀ {kws : List Str} {rs : List OResp} {bl : List Str} {f : Bool},
    mainLoop y kws rs = Except.ok (bl, f) →
    ∀ l ∈ bl, hasPre camilloMark l = false := by
  intro kws
  induction kws with
  | nil =>
    intro rs bl f h l hl
    rw [mainLoop] at h
    injection h with h₁
    injection h₁ with hbl hf
    rw [← hbl] at hl
    exact absurd hl (List.not_mem_nil l)
  | cons kw kws ih =>
    intro rs bl f h l hl
    rw [mainLoop] at h
    split at h
    · exact absurd h (by simp)
    · rename_i out ls f₁ heq
      split at h
      · exact absurd h (by simp)
      · rename_i out₂ ls₂ f₂ heq₂
        injection h with h₁
        injection h₁ with hbl hf
        rw [← hbl] at hl
        rcases List.mem_append.mp hl with hl | hl
        · rcases processKeyword_ok_cases heq with ⟨rfl, _⟩ | ⟨_, _, hm⟩
          · exact absurd hl (List.not_mem_nil l)
          · exact hm l hl
        · exact ih heq₂ l hl

/-- A loop over all-below-threshold steps accumulates nothing. -/
theorem mainLoop_low {y : Yfin} :
    ∀ (kws : List Str) (rs : List OResp),
    kws.length ≤ rs.length →
    ((kws.zip rs).all fun pr => isLowStep y pr.1 pr.2) = true →
    mainLoop y kws rs = Except.ok ([], false) := by
  intro kws
  induction kws with
  | nil => intro rs _ _; rw [mainLoop]
  | cons kw kws ih =>
    intro rs hlen hall
    cases rs with
    | nil => simp at hlen
    | cons r rs₂ =>
      have hall₂ := hall
      rw [List.zip_cons_cons, List.all_cons, Bool.and_eq_true] at hall₂
      have hstep : stepOf y kw r = Except.ok ([], false) := by
        have h₁ := hall₂.1
        rw [isLowStep] at h₁
        split at h₁
        · assumption
        · exact Bool.noConfusion h₁
      simp only [mainLoop_cons, hstep, ih rs₂ (by simpa using hlen) hall₂.2]
      rfl

/-- A loop whose steps all complete produces exactly the concatenation of
the qualifying keywords' blocks, in order, with the found flag their
disjunction. -/
theorem mainLoop_filter {y : Yfin} :
    ∀ (kws : List Str) (rs : List OResp),
    kws.length ≤ rs.length →
    ((kws.zip rs).all fun pr => stepOk y pr.1 pr.2) = true →
    mainLoop y kws rs = Except.ok
      (((kws.zip rs).filter fun pr => qualifiesB y pr.1 pr.2).flatMap
        (fun pr => blockOf y pr.1 pr.2),
       (kws.zip rs).any fun pr => qualifiesB y pr.1 pr.2) := by
  intro kws
  induction kws with
  | nil => intro rs _ _; rw [mainLoop]; simp
  | cons kw kws ih =>
    intro rs hlen hall
    cases rs with
    | nil => simp at hlen
    | cons r rs₂ =>
      rw [List.zip_cons_cons, List.all_cons, Bool.and_eq_true] at hall
      obtain ⟨ls, f₁, hstep⟩ : ∃ ls f₁, stepOf y kw r = Except.ok (ls, f₁) := by
        have h₁ := hall.1
        rw [stepOk] at h₁
        split at h₁
        · rename_i out heq
          exact ⟨out.1, out.2, heq⟩
        · exact Bool.noConfusion h₁
      have hq : qualifiesB y kw r = f₁ := by
        rw [qualifiesB, hstep]
      have hb : blockOf y kw r = ls := by
        rw [blockOf, hstep]
      simp only [mainLoop_cons, hstep, ih rs₂ (by simpa using hlen) hall.2,
        List.zip_cons_cons, List.filter_cons, List.any_cons, hq, hb]
      cases f₁ with
      | true => simp [hb]
      | false =>
        rcases processKeyword_ok_cases hstep with ⟨rfl, _⟩ | ⟨hf, _, _⟩
        · simp
        · exact Bool.noConfusion hf

/-- A failed oracle call or parse yields the default verdict. -/
theorem analyze_fail {r : OResp} {e : PyErr} (h : jsonAttempt r = Except.error e) :
    analyze_trend r = defaultVerdict e := by
  rw [analyze_trend, h]

/-- A parsed verdict is returned unchanged, whatever its shape. -/
theorem analyze_parsed {r : OResp} {j : Json} (h : jsonAttempt r = Except.ok j) :
    analyze_trend r = j := by
  rw [analyze_trend, h]

/-- Unfolding of one enrichment step. -/
theorem enrich_cons (y : Yfin) (t : Json) (ts : List Json) :
    enrichTickers y (t :: ts) =
      if pyTruthy t then
        match t with
        | Json.str s =>
          if pyLower s = lc "none" then enrichTickers y ts
          else
            match enrichTickers y ts with
            | Except.ok rest => Except.ok (get_stock_info y s :: rest)
            | Except.error e => Except.error e
        | _ => Except.error (lc "AttributeError: object has no attribute lower")
      else enrichTickers y ts := rfl

/-- Enrichment completes on a list of well-behaved elements. -/
theorem enrich_ok {y : Yfin} :
    ∀ {els : List Json}, (∀ t ∈ els, tickerElemOk t = true) →
    ∃ out, enrichTickers y els = Except.ok out := by
  intro els
  induction els with
  | nil => intro _; exact ⟨[], rfl⟩
  | cons t ts ih =>
    intro h
    have ht := h t (List.mem_cons_self t ts)
    obtain ⟨out, hout⟩ := ih (fun u hu => h u (List.mem_cons_of_mem t hu))
    by_cases htr : pyTruthy t = true
    · cases t with
      | str s =>
        rw [enrich_cons, if_pos htr]
        show ∃ out,
          (if pyLower s = lc "none" then enrichTickers y ts
           else
             match enrichTickers y ts with
             | Except.ok rest => Except.ok (get_stock_info y s :: rest)
             | Except.error e => Except.error e) = Except.ok out
        by_cases hn : pyLower s = lc "none"
        · rw [if_pos hn]
          exact ⟨out, hout⟩
        · rw [if_neg hn, hout]
          exact ⟨_, rfl⟩
      | null => exact Bool.noConfusion htr
      | bool b =>
        have ht₂ : (if pyTruthy (Json.bool b) = true then false else true) = true := ht
        rw [if_pos htr] at ht₂
        exact Bool.noConfusion ht₂
      | num n =>
        have ht₂ : (if pyTruthy (Json.num n) = true then false else true) = true := ht
        rw [if_pos htr] at ht₂
        exact Bool.noConfusion ht₂
      | arr xs =>
        have ht₂ : (if pyTruthy (Json.arr xs) = true then false else true) = true := ht
        rw [if_pos htr] at ht₂
        exact Bool.noConfusion ht₂
      | obj kvs =>
        have ht₂ : (if pyTruthy (Json.obj kvs) = true then false else true) = true := ht
        rw [if_pos htr] at ht₂
        exact Bool.noConfusion ht₂
    · rw [enrich_cons, if_neg htr]
      exact ⟨out, hout⟩

/-- A shape-safe response's keyword step completes. -/
theorem step_safe {y : Yfin} {kw : Str} {r : OResp} (h : safeResp r = true) :
    ∃ out, processKeyword y kw (analyze_trend r) = Except.ok out := by
  rw [safeResp] at h
  split at h
  · rename_i e heq
    rw [analyze_fail heq, processKeyword_default]
    exact ⟨_, rfl⟩
  · rename_i j heq
    rw [analyze_parsed heq]
    cases j with
    | null => exact Bool.noConfusion h
    | bool b => exact Bool.noConfusion h
    | num n => exact Bool.noConfusion h
    | str s => exact Bool.noConfusion h
    | arr xs => exact Bool.noConfusion h
    | obj kvs =>
      rw [shapeSafe] at h
      split at h
      · exact Bool.noConfusion h
      · rename_i sj hsj
        split at h
        · exact Bool.noConfusion h
        · rename_i q hq
          split at h
          · rename_i hqt
            split at h
            · exact Bool.noConfusion h
            · rename_i tj htj
              split at h
              · exact Bool.noConfusion h
              · rename_i els hels
                obtain ⟨infos, hinf⟩ :=
                  @enrich_ok y els (List.all_eq_true.mp h)
                have hsj₂ : (jlookup kvs (lc "asymmetry_score")).getD (Json.num 0) = sj := by
                  have h₀ := hsj
                  rw [pyGet] at h₀
                  injection h₀
                have htj₂ : (jlookup kvs (lc "tickers")).getD (Json.arr []) = tj := by
                  have h₀ := htj
                  rw [pyGet] at h₀
                  injection h₀
                cases hres : processKeyword y kw (Json.obj kvs) with
                | ok out => exact ⟨out, rfl⟩
                | error e =>
                  exfalso
                  simp only [processKeyword, pyGet, hsj₂, hq, hqt, htj₂, hels, hinf,
                    eq_self_iff_true, if_true] at hres
                  exact Except.noConfusion hres
          · rename_i hqf
            refine ⟨([], false), ?_⟩
            simp only [processKeyword, hsj, hq]
            rw [if_neg hqf]

/-- A loop over safe responses completes. -/
theorem mainLoop_safe {y : Yfin} :
    ∀ (kws : List Str) (rs : List OResp),
    kws.length ≤ rs.length →
    ((kws.zip rs).all fun pr => safeResp pr.2) = true →
    ∃ out, mainLoop y kws rs = Except.ok out := by
  intro kws
  induction kws with
  | nil => intro rs _ _; exact ⟨([], false), rfl⟩
  | cons kw kws ih =>
    intro rs hlen hall
    cases rs with
    | nil => simp at hlen
    | cons r rs₂ =>
      rw [List.zip_cons_cons, List.all_cons, Bool.and_eq_true] at hall
      obtain ⟨out₁, hstep⟩ := @step_safe y kw r hall.1
      obtain ⟨out₂, hout₂⟩ := ih rs₂ (by simpa using hlen) hall.2
      cases out₁ with
      | mk ls f₁ =>
        cases out₂ with
        | mk ls₂ f₂ =>
          refine ⟨(ls ++ ls₂, f₁ || f₂), ?_⟩
          have hstep₂ : stepOf y kw r = Except.ok (ls, f₁) := hstep
          simp only [mainLoop_cons, hstep₂, hout₂]

/-- A completed step signals exactly when the threshold comparison of the
verdict's score evaluates to true. -/
theorem qualifies_scoreCheck {y : Yfin} {kw : Str} {r : OResp}
    (h : stepOk y kw r = true) : qualifiesB y kw r = scoreCheck r := by
  rw [stepOk] at h
  split at h
  · rename_i out heq
    cases out with
    | mk ls₀ f₀ =>
      have hqb : qualifiesB y kw r = f₀ := by rw [qualifiesB, heq]
      rw [hqb]
      rw [stepOf, processKeyword] at heq
      split at heq
      · exact absurd heq (by simp)
      · rename_i sj hsj
        split at heq
        · exact absurd heq (by simp)
        · rename_i q hq
          split at heq
          · rename_i hqt
            split at heq
            · exact absurd heq (by simp)
            · split at heq
              · exact absurd heq (by simp)
              · split at heq
                · exact absurd heq (by simp)
                · split at heq
                  · exact absurd heq (by simp)
                  · split at heq
                    · exact absurd heq (by simp)
                    · split at heq
                      · exact absurd heq (by simp)
                      · injection heq with h₁
                        injection h₁ with hls hf
                        rw [← hf]
                        simp only [scoreCheck, hsj, hq]
                        exact hqt.symm
          · rename_i hqf
            injection heq with h₁
            injection h₁ with hls hf
            rw [← hf]
            simp only [scoreCheck, hsj, hq]
            exact ((Bool.not_eq_true q).mp hqf).symm
  · exact Bool.noConfusion h

/-- On a list of plain ticker strings, enrichment produces exactly one
snapshot per kept ticker, in order. -/
theorem enrich_strings (y : Yfin) :
    ∀ ss : List Str, enrichTickers y (ss.map Json.str) =
      Except.ok ((ss.filter tickerKeep).map (get_stock_info y)) := by
  intro ss
  induction ss with
  | nil => rfl
  | cons s ss ih =>
    rw [List.map_cons, enrichTickers, List.filter_cons]
    cases hs : s with
    | nil =>
      rw [if_neg (by simp [pyTruthy])]
      rw [show tickerKeep [] = false from rfl]
      simpa using ih
    | cons c s₂ =>
      rw [if_pos (by simp [pyTruthy])]
      by_cases hn : pyLower (c :: s₂) = lc "none"
      · rw [if_pos hn]
        rw [show tickerKeep (c :: s₂) = false by rw [tickerKeep, if_neg (by simp), if_pos hn]]
        simpa using ih
      · rw [if_neg hn]
        rw [show tickerKeep (c :: s₂) = true by rw [tickerKeep, if_neg (by simp), if_neg hn]]
        rw [← hs]
        simp only [ih]
        simp

/-- The Camillo-check line carries the marker. -/
theorem camilloLine_marked (env : Env) :
    hasPre camilloMark (camilloLine env) = true := by
  refine (hasPre_ex _ _).mpr ⟨lc " & DumbMoney X Check**:\n" ++ check_camillo_signals env, ?_⟩
  rw [camilloLine,
    show lc "\n**Camillo & DumbMoney X Check**:\n" =
      camilloMark ++ lc " & DumbMoney X Check**:\n" by decide,
    List.append_assoc]

/-- The three possible bodies of the Camillo check. -/
theorem check_camillo_cases (env : Env) :
    check_camillo_signals env = lc "X monitoring skipped (no API keys set)" ∨
    check_camillo_signals env =
      lc "No recent signal-like posts from @ChrisCamillo or @DumbMoneyTV" ∨
    ∃ sigs, sigs ≠ [] ∧ check_camillo_signals env = pyJoin (lc "\n") sigs := by
  rw [check_camillo_signals]
  by_cases hc : env.xCreds = true
  · rw [if_neg (by simp [hc])]
    by_cases hse :
        (([lc "ChrisCamillo", lc "DumbMoneyTV"]).flatMap (userSignals env)).isEmpty = true
    · rw [if_pos hse]
      exact Or.inr (Or.inl rfl)
    · rw [if_neg hse]
      exact Or.inr (Or.inr
        ⟨([lc "ChrisCamillo", lc "DumbMoneyTV"]).flatMap (userSignals env),
         by simpa [List.isEmpty_iff] using hse, rfl⟩)
  · rw [if_pos (by simp [Bool.not_eq_true] at hc; simp [hc])]
    exact Or.inl rfl

/-- Claim C1, counterexample: the oracle response `"[1, 2]"` is valid JSON
that is not a record of the required shape; the scorer returns it
unchanged instead of substituting the default verdict, and the per-keyword
driver loop then raises an uncaught `AttributeError` at
`analysis.get("asymmetry_score", 0)`, aborting the run. -/
theorem c1_nonrecord_response_crashes_run :
    analyze_trend (Except.ok (lc "[1, 2]")) = Json.arr [Json.num 1, Json.num 2] ∧
    runReport cenv0 yf0 (Except.ok (lc "[1, 2]") :: tape0) =
      Except.error (lc "AttributeError: object has no attribute get") :=
  ⟨rfl, rfl⟩

/-- Claim C1 as amended: an oracle response whose fence-processing or JSON
parse raises is replaced by the default verdict, and a run whose responses
are all safe (parse failure, or a record with an int/bool score and — when
qualifying — a ticker list of falsy-or-string entries) completes without
an uncaught error; but a response parsing to JSON of the wrong shape is
returned as-is and can crash the driver loop, as the counterexample
shows. -/
theorem c1_parse_failures_defaulted_and_safe_runs_complete :
    (∀ (s : Str) (e : PyErr), jsonAttempt (Except.ok s) = Except.error e →
      analyze_trend (Except.ok s) = defaultVerdict e) ∧
    (∀ (y : Yfin) (kws : List Str) (rs : List OResp),
      kws.length ≤ rs.length →
      ((kws.zip rs).all fun pr => safeResp pr.2) = true →
      ∃ out, mainLoop y kws rs = Except.ok out) :=
  ⟨fun _ _ h => analyze_fail h,
   fun _ kws rs hlen hall => mainLoop_safe kws rs hlen hall⟩

/-- Witness for the amended C1 at concrete inputs. -/
theorem c1_parse_failures_defaulted_and_safe_runs_complete_witness :
    analyze_trend (Except.ok (lc "not json")) = defaultVerdict (lc "Expecting value") ∧
    ∃ out, mainLoop yf0 [lc "aa"] [respDown] = Except.ok out :=
  ⟨c1_parse_failures_defaulted_and_safe_runs_complete.1 (lc "not json")
      (lc "Expecting value") rfl,
   c1_parse_failures_defaulted_and_safe_runs_complete.2 yf0 [lc "aa"] [respDown]
      (by decide) (by decide)⟩

/-- Claim C2, counterexample: a run in which every keyword scores below
the threshold produces a three-element report — header, the
unconditionally appended Camillo-check line, and the fallback line — not
the claimed two-element `[header, fallback]`. -/
theorem c2_all_low_report_has_camillo_line :
    runReport cenv0 yf0 tape0 =
      Except.ok [headerLine, camilloLine cenv0, fallbackLine] ∧
    runReport cenv0 yf0 tape0 ≠ Except.ok [headerLine, fallbackLine] :=
  ⟨rfl, fun h => by
    have h₀ : runReport cenv0 yf0 tape0 =
        Except.ok [headerLine, camilloLine cenv0, fallbackLine] := rfl
    rw [h₀] at h
    injection h with h₂
    have := congrArg List.length h₂
    simp at this⟩

/-- Claim C2 as amended: when every keyword's step completes below the
threshold, the report is exactly the header, the Camillo-check line, and
the fallback line. -/
theorem c2_all_low_report_shape :
    ∀ (env : Env) (y : Yfin) (tape : List OResp),
    KEYWORDS.length ≤ tape.length →
    ((KEYWORDS.zip tape).all fun pr => isLowStep y pr.1 pr.2) = true →
    runReport env y tape = Except.ok [headerLine, camilloLine env, fallbackLine] := by
  intro env y tape hlen hall
  rw [runReport, mainLoop_low KEYWORDS tape hlen hall]
  rfl

/-- Witness for the amended C2 at concrete inputs. -/
theorem c2_all_low_report_shape_witness :
    runReport cenv0 yf0 tape0 =
      Except.ok [headerLine, camilloLine cenv0, fallbackLine] :=
  c2_all_low_report_shape cenv0 yf0 tape0 (by decide) (by decide)

/-- Claim C3: the aggregated buzz score is the weighted sum
`search × 1 + reddit × 3 + social × 2` and is the value placed in the
oracle request; with search 3, Reddit 5, social 0 it is 18. -/
theorem c3_buzz_weighted_sum :
    (∀ (env : Env) (kw : Str),
      (buildRequest env kw).buzz_score =
        (get_serper_buzz env kw).1 * 1 + get_reddit_buzz env kw * 3 +
          (get_x_buzz env kw).1 * 2) ∧
    (buildRequest cenv18 (lc "pickleball ontario")).buzz_score = 18 ∧
    get_serper_buzz cenv18 (lc "pickleball ontario") = (3, lc "3 organic + 0 related") ∧
    get_reddit_buzz cenv18 (lc "pickleball ontario") = 5 ∧
    (get_x_buzz cenv18 (lc "pickleball ontario")).1 = 0 := by
  refine ⟨fun env kw => ?_, by decide, by decide, by decide, by decide⟩
  rw [buildRequest]
  ring

/-- Claim C4: the substituted default verdict has score 0, a thesis built
from the error text truncated to 80 characters, an empty ticker list,
conviction low and an empty summary; and a failed keyword consumes
exactly one oracle response before the loop moves on — no retry. -/
theorem c4_default_verdict_and_no_retry :
    (∀ e : PyErr, analyze_trend (Except.error e) =
      Json.obj
        [(lc "asymmetry_score", Json.num 0),
         (lc "thesis", Json.str (lc "Error: " ++ pyTake 80 e)),
         (lc "tickers", Json.arr []),
         (lc "conviction", Json.str (lc "low")),
         (lc "sources_summary", Json.str [])]) ∧
    (∀ (s : Str) (e : PyErr), jsonAttempt (Except.ok s) = Except.error e →
      analyze_trend (Except.ok s) =
      Json.obj
        [(lc "asymmetry_score", Json.num 0),
         (lc "thesis", Json.str (lc "Error: " ++ pyTake 80 e)),
         (lc "tickers", Json.arr []),
         (lc "conviction", Json.str (lc "low")),
         (lc "sources_summary", Json.str [])]) ∧
    (∀ e : PyErr, (pyTake 80 e).length ≤ 80) ∧
    (∀ (y : Yfin) (kw : Str) (kws : List Str) (r : OResp) (rs : List OResp),
      jsonFails r = true →
      mainLoop y (kw :: kws) (r :: rs) = mainLoop y kws rs) := by
  refine ⟨fun e => rfl, fun s e h => analyze_fail h, fun e => ?_, ?_⟩
  · rw [pyTake]
    exact List.length_take_le 80 e
  · intro y kw kws r rs hfail
    rw [jsonFails] at hfail
    split at hfail
    · rename_i e heq
      have hstep : stepOf y kw r = Except.ok ([], false) := by
        rw [stepOf, analyze_fail heq, processKeyword_default]
      simp only [mainLoop_cons, hstep]
      cases hm : mainLoop y kws rs with
      | error e₂ => rfl
      | ok out => cases out with | mk ls₂ f₂ => simp
    · exact Bool.noConfusion hfail

/-- Witness for C4 at concrete inputs. -/
theorem c4_default_verdict_and_no_retry_witness :
    analyze_trend (Except.ok (lc "oops")) =
      Json.obj
        [(lc "asymmetry_score", Json.num 0),
         (lc "thesis", Json.str (lc "Error: " ++ pyTake 80 (lc "Expecting value"))),
         (lc "tickers", Json.arr []),
         (lc "conviction", Json.str (lc "low")),
         (lc "sources_summary", Json.str [])] ∧
    mainLoop yf0 [lc "aa", lc "bb"] [respDown, respDown] =
      mainLoop yf0 [lc "bb"] [respDown] :=
  ⟨c4_default_verdict_and_no_retry.2.1 (lc "oops") (lc "Expecting value") rfl,
   c4_default_verdict_and_no_retry.2.2.2 yf0 (lc "aa") [lc "bb"] respDown
     [respDown] rfl⟩

/-- Claim C5: on a verdict ticker list of strings, the enricher produces
exactly one snapshot per non-empty, non-sentinel ticker, in order — and
none (with no fetch attempt, as the dependence is only on kept tickers)
for empty or `"none"`-sentinel entries; `["NONE", "XYZ"]` yields exactly
the one entry for `"XYZ"`. -/
theorem c5_ticker_sentinel :
    (∀ (y : Yfin) (ss : List Str),
      enrichTickers y (ss.map Json.str) =
        Except.ok ((ss.filter tickerKeep).map (get_stock_info y))) ∧
    (∀ s : Str, tickerKeep s = true ↔ (s ≠ [] ∧ pyLower s ≠ lc "none")) ∧
    enrichTickers yf0 [Json.str (lc "NONE"), Json.str (lc "XYZ")] =
      Except.ok [get_stock_info yf0 (lc "XYZ")] ∧
    (∀ (y₁ y₂ : Yfin) (ss : List Str),
      (∀ s ∈ ss.filter tickerKeep, y₁ s = y₂ s) →
      enrichTickers y₁ (ss.map Json.str) = enrichTickers y₂ (ss.map Json.str)) := by
  refine ⟨enrich_strings, ?_, by rfl, ?_⟩
  · intro s
    rw [tickerKeep]
    by_cases h₁ : s = []
    · simp [h₁]
    · rw [if_neg h₁]
      by_cases h₂ : pyLower s = lc "none"
      · simp [h₁, h₂]
      · simp [h₁, h₂]
  · intro y₁ y₂ ss hagree
    rw [enrich_strings, enrich_strings]
    congr 1
    apply List.map_congr_left
    intro s hs
    rw [get_stock_info, get_stock_info, hagree s hs]

/-- Witness for C5's fetch-independence conjunct at a concrete input. -/
theorem c5_ticker_sentinel_witness :
    enrichTickers yf0 ([lc "NONE"].map Json.str) =
      enrichTickers yfConst ([lc "NONE"].map Json.str) :=
  c5_ticker_sentinel.2.2.2 yf0 yfConst [lc "NONE"] (by
    intro s hs
    rw [show List.filter tickerKeep [lc "NONE"] = [] by decide] at hs
    exact absurd hs (List.not_mem_nil s))

/-- Claim C6: in a run whose keyword steps all complete, the loop's
output is exactly the concatenation, in original keyword order, of one
block (four or five appended lines) per qualifying keyword — qualifying
meaning the verdict's threshold comparison `score >= 7` holds — with
below-threshold keywords contributing nothing and no re-sorting. -/
theorem c6_qualifying_blocks_in_order :
    ∀ (y : Yfin) (kws : List Str) (rs : List OResp),
    kws.length ≤ rs.length →
    ((kws.zip rs).all fun pr => stepOk y pr.1 pr.2) = true →
    (mainLoop y kws rs = Except.ok
      (((kws.zip rs).filter fun pr => qualifiesB y pr.1 pr.2).flatMap
        (fun pr => blockOf y pr.1 pr.2),
       (kws.zip rs).any fun pr => qualifiesB y pr.1 pr.2)) ∧
    (∀ pr ∈ kws.zip rs, qualifiesB y pr.1 pr.2 = scoreCheck pr.2) ∧
    (∀ pr ∈ kws.zip rs, qualifiesB y pr.1 pr.2 = true →
      4 ≤ (blockOf y pr.1 pr.2).length ∧ (blockOf y pr.1 pr.2).length ≤ 5) := by
  intro y kws rs hlen hall
  have hallm := List.all_eq_true.mp hall
  refine ⟨mainLoop_filter kws rs hlen hall, ?_, ?_⟩
  · intro pr hpr
    exact qualifies_scoreCheck (hallm pr hpr)
  · intro pr hpr hq
    have hok := hallm pr hpr
    rw [stepOk] at hok
    split at hok
    · rename_i out heq
      cases out with
      | mk ls f =>
        have hb : blockOf y pr.1 pr.2 = ls := by rw [blockOf, heq]
        have hf : f = true := by
          rw [qualifiesB, heq] at hq
          exact hq
        rcases processKeyword_ok_cases heq with ⟨_, hff⟩ | ⟨_, hlen45, _⟩
        · rw [hff] at hf
          exact Bool.noConfusion hf
        · rw [hb]
          rcases hlen45 with h₄ | h₅
          · omega
          · omega
    · exact Bool.noConfusion hok

/-- Witness for C6 at concrete inputs: the first keyword qualifies, the
second does not. -/
theorem c6_qualifying_blocks_in_order_witness :
    mainLoop yf0 [lc "aa", lc "bb"] [respHigh, respDown] = Except.ok
      ((([lc "aa", lc "bb"].zip [respHigh, respDown]).filter
          fun pr => qualifiesB yf0 pr.1 pr.2).flatMap
        (fun pr => blockOf yf0 pr.1 pr.2),
       ([lc "aa", lc "bb"].zip [respHigh, respDown]).any
         fun pr => qualifiesB yf0 pr.1 pr.2) :=
  (c6_qualifying_blocks_in_order yf0 [lc "aa", lc "bb"] [respHigh, respDown]
    (by decide) (by decide)).1

/-- Claim C7, counterexample: a JSON payload containing the fence marker
inside a string parses when unfenced but, once wrapped in a code fence,
is truncated at the inner marker and falls back to the default verdict —
so fenced and unfenced parsing differ. -/
theorem c7_fenced_payload_with_inner_fence_differs :
    analyze_trend (Except.ok (fenceWrap (lc "[\"x``` y\"]"))) ≠
      analyze_trend (Except.ok (lc "[\"x``` y\"]")) := by
  intro h
  exact absurd (congrArg pyStr h) (by decide)

/-- Claim C7 as amended: for every payload that does not contain the
triple-backtick fence marker, parsing the payload wrapped in a fenced
code block yields the same verdict as parsing it unfenced. -/
theorem c7_fence_equivalence :
    ∀ p : Str, hasSub fence3 p = false →
    analyze_trend (Except.ok (fenceWrap p)) = analyze_trend (Except.ok p) := by
  intro p h
  simp only [analyze_trend, jsonAttempt, processContent_fenced h,
    processContent_unfenced h]

/-- Witness for the amended C7 at a concrete payload. -/
theorem c7_fence_equivalence_witness :
    analyze_trend (Except.ok (fenceWrap (lc "[1, 2]"))) =
      analyze_trend (Except.ok (lc "[1, 2]")) :=
  c7_fence_equivalence (lc "[1, 2]") (by decide)

/-- Claim C8: every signal fetcher is total — missing credentials yield
the zero/empty default without consulting the upstream (the result is
independent of it), and an upstream exception is converted to the same
zero default with a truncated reason string; no fetcher propagates an
error. -/
theorem c8_fetchers_total :
    (∀ (env : Env) (kw : Str), env.redditCreds = false →
      get_reddit_buzz env kw = 0) ∧
    (∀ (env : Env) (kw : Str) (f g : Str → Except PyErr Int),
      env.redditCreds = false →
      get_reddit_buzz { env with redditSearch := f } kw =
        get_reddit_buzz { env with redditSearch := g } kw) ∧
    (∀ (env : Env) (kw : Str) (m : PyErr),
      env.redditSearch kw = Except.error m → get_reddit_buzz env kw = 0) ∧
    (∀ (env : Env) (kw : Str), env.serperKey = false →
      get_serper_buzz env kw = (0, lc "Serper key not set")) ∧
    (∀ (env : Env) (kw : Str) (f g : Str → Except PyErr Json),
      env.serperKey = false →
      get_serper_buzz { env with serperHttp := f } kw =
        get_serper_buzz { env with serperHttp := g } kw) ∧
    (∀ (env : Env) (kw : Str) (m : PyErr), env.serperKey = true →
      env.serperHttp (serperQuery kw) = Except.error m →
      get_serper_buzz env kw = (0, lc "Serper error: " ++ pyTake 60 m)) ∧
    (∀ (env : Env) (kw : Str), env.xCreds = false →
      get_x_buzz env kw = (0, lc "X API not configured")) ∧
    (∀ (env : Env) (kw : Str) (f g : Str → Except PyErr Int),
      env.xCreds = false →
      get_x_buzz { env with xSearch := f } kw =
        get_x_buzz { env with xSearch := g } kw) ∧
    (∀ (env : Env) (kw : Str) (m : PyErr), env.xCreds = true →
      env.xSearch (xQuery kw) = Except.error m →
      get_x_buzz env kw = (0, lc "X error: " ++ pyTake 60 m)) := by
  refine ⟨?_, ?_, ?_, ?_, ?_, ?_, ?_, ?_, ?_⟩
  · intro env kw h
    simp [get_reddit_buzz, h]
  · intro env kw f g h
    simp [get_reddit_buzz, h]
  · intro env kw m hm
    rw [get_reddit_buzz]
    split
    · rfl
    · rw [hm]
  · intro env kw h
    simp [get_serper_buzz, h]
  · intro env kw f g h
    simp [get_serper_buzz, h]
  · intro env kw m hk hm
    rw [get_serper_buzz, if_neg (by simp [hk])]
    rw [serperTry, hm]
  · intro env kw h
    simp [get_x_buzz, h]
  · intro env kw f g h
    simp [get_x_buzz, h]
  · intro env kw m hk hm
    rw [get_x_buzz, if_neg (by simp [hk]), hm]

/-- Witness for C8 at concrete environments. -/
theorem c8_fetchers_total_witness :
    get_reddit_buzz cenv0 (lc "kw") = 0 ∧
    get_serper_buzz cenv0 (lc "kw") = (0, lc "Serper key not set") ∧
    get_x_buzz cenv0 (lc "kw") = (0, lc "X API not configured") ∧
    get_serper_buzz cenvSerpErr (lc "kw") =
      (0, lc "Serper error: " ++ pyTake 60 (lc "boom")) :=
  ⟨c8_fetchers_total.1 cenv0 (lc "kw") rfl,
   c8_fetchers_total.2.2.2.1 cenv0 (lc "kw") rfl,
   c8_fetchers_total.2.2.2.2.2.2.1 cenv0 (lc "kw") rfl,
   c8_fetchers_total.2.2.2.2.2.1 cenvSerpErr (lc "kw") (lc "boom") rfl rfl⟩

/-- Claim C9: the pipeline is deterministic in its external inputs —
identical fetcher, oracle and auxiliary-service outcomes produce a
byte-identical joined report text. -/
theorem c9_report_deterministic :
    ∀ (e₁ e₂ : Env) (y₁ y₂ : Yfin) (t₁ t₂ : List OResp),
    e₁ = e₂ → y₁ = y₂ → t₁ = t₂ →
    reportText e₁ y₁ t₁ = reportText e₂ y₂ t₂ := by
  intro e₁ e₂ y₁ y₂ t₁ t₂ he hy ht
  subst he
  subst hy
  subst ht
  rfl

/-- Witness for C9 at concrete inputs. -/
theorem c9_report_deterministic_witness :
    reportText cenv0 yf0 tape0 = reportText cenv0 yf0 tape0 :=
  c9_report_deterministic cenv0 cenv0 yf0 yf0 tape0 tape0 rfl rfl rfl

/-- Claim C10: every produced report contains exactly one Camillo-check
line, placed after all keyword blocks and before the fallback line when
that is present, whatever the keywords scored; its body is the skipped
message, the no-recent-posts message, or the joined signal lines. -/
theorem c10_single_camillo_section :
    ∀ (env : Env) (y : Yfin) (tape : List OResp) (lines : List Str),
    runReport env y tape = Except.ok lines →
    (∃ blocks found, mainLoop y KEYWORDS tape = Except.ok (blocks, found) ∧
      lines = [headerLine] ++ blocks ++ [camilloLine env] ++
        (if found then [] else [fallbackLine])) ∧
    lines.countP (fun l => hasPre camilloMark l) = 1 ∧
    (check_camillo_signals env = lc "X monitoring skipped (no API keys set)" ∨
     check_camillo_signals env =
       lc "No recent signal-like posts from @ChrisCamillo or @DumbMoneyTV" ∨
     ∃ sigs, sigs ≠ [] ∧ check_camillo_signals env = pyJoin (lc "\n") sigs) := by
  intro env y tape lines h
  rw [runReport] at h
  split at h
  · exact absurd h (by simp)
  · rename_i blocks found heq
    injection h with hlines
    refine ⟨⟨blocks, found, heq, hlines.symm⟩, ?_, check_camillo_cases env⟩
    rw [← hlines]
    rw [List.countP_append, List.countP_append, List.countP_append]
    have h₁ : List.countP (fun l => hasPre camilloMark l) [headerLine] = 0 := by decide
    have h₂ : List.countP (fun l => hasPre camilloMark l) blocks = 0 := by
      rw [List.countP_eq_zero]
      intro l hl
      simp [mainLoop_no_marker heq l hl]
    have h₃ : List.countP (fun l => hasPre camilloMark l) [camilloLine env] = 1 := by
      rw [List.countP_cons, List.countP_nil]
      simp [camilloLine_marked env]
    have h₄ : List.countP (fun l => hasPre camilloMark l)
        (if found = true then [] else [fallbackLine]) = 0 := by
      cases found with
      | true => rfl
      | false => decide
    rw [h₁, h₂, h₃, h₄]

/-- Witness for C10 at concrete inputs. -/
theorem c10_single_camillo_section_witness :
    List.countP (fun l => hasPre camilloMark l)
      [headerLine, camilloLine cenv0, fallbackLine] = 1 ∧
    (check_camillo_signals cenv0 = lc "X monitoring skipped (no API keys set)" ∨
     check_camillo_signals cenv0 =
       lc "No recent signal-like posts from @ChrisCamillo or @DumbMoneyTV" ∨
     ∃ sigs, sigs ≠ [] ∧ check_camillo_signals cenv0 = pyJoin (lc "\n") sigs) :=
  ⟨(c10_single_camillo_section cenv0 yf0 tape0
      [headerLine, camilloLine cenv0, fallbackLine] rfl).2.1,
   (c10_single_camillo_section cenv0 yf0 tape0
      [headerLine, camilloLine cenv0, fallbackLine] rfl).2.2⟩

end Camillo
